import Mathlib

/-!
Verification of the `deribit_arb` options-arbitrage engine.

This file gives a shallow embedding, in Lean, of the engine's core components
(data model, fee engine, strategy detector suite, option-chain store, risk gate
and instrument-name parser), translated from the Rust sources under
`src/deribit_arb/src/`, and proves theorems about them.

Modelling conventions:
- `rust_decimal::Decimal` (exact fixed-point decimal arithmetic) is modelled as `ℚ`.
- `chrono::DateTime<Utc>` values used by the engine are modelled as `Int`
  timestamps in seconds (only equality, ordering and subtraction are used).
- The two `f64` quantities touched by the engine (the configured
  `min_edge_ratio` and the informational `edge_bps`) are modelled as exact
  rationals; the engine compares `net_edge_usd / max(fees, 0.01)` against the
  configured bound after an `f64` conversion, which we model as the exact
  rational comparison.
- Rust `HashMap` grouping has unspecified iteration order; we fix
  first-insertion order.  No theorem below depends on group iteration order.
- Rust's stable `sort_by` is modelled with `List.insertionSort`: a stable sort's
  output is the unique stably-sorted permutation, so any stable sorting
  algorithm denotes the same function.
- Fallible Rust functions returning `anyhow::Result` are modelled with
  `Except String`; error payload strings reproduce the source messages.
-/

/-- Model of `model::Currency`. -/
inductive Currency where
  | btc
  | eth
deriving DecidableEq, Repr, Inhabited

/-- Model of `model::OptionKind`. -/
inductive OptionKind where
  | call
  | put
deriving DecidableEq, Repr, Inhabited

/-- Model of `model::SettlementCurrency`. -/
inductive SettlementCurrency where
  | usdc
  | coin
deriving DecidableEq, Repr, Inhabited

/-- Model of `model::ComboSide`. -/
inductive ComboSide where
  | buy
  | sell
deriving DecidableEq, Repr, Inhabited

/-- Model of `model::FillRole`. -/
inductive FillRole where
  | maker
  | taker
deriving DecidableEq, Repr, Inhabited

/-- Model of `model::StrategyKind`. -/
inductive StrategyKind where
  | vertical
  | butterfly
  | calendar
  | box
  | staleQuote
  | jellyRoll
deriving DecidableEq, Repr, Inhabited

/-- Model of `model::OrderTimeInForce`. -/
inductive OrderTimeInForce where
  | ioc
  | fok
  | gtc
deriving DecidableEq, Repr, Inhabited

/-- Model of `model::QuoteLevel` (price and amount as decimals). -/
structure QuoteLevel where
  price : ℚ
  amount : ℚ
deriving DecidableEq, Repr, Inhabited

/-- Model of `model::Quote`.  The implied-volatility and interest-rate fields
are venue-reported `f64` values the engine never reads; they are carried as
rationals for completeness. -/
structure Quote where
  best_bid : Option QuoteLevel
  best_ask : Option QuoteLevel
  mark_iv : Option ℚ
  bid_iv : Option ℚ
  ask_iv : Option ℚ
  interest_rate : Option ℚ
  timestamp : Int
  index_price : ℚ
deriving DecidableEq, Repr, Inhabited

/-- Model of `model::OrderBook`. -/
structure OrderBook where
  bids : List QuoteLevel
  asks : List QuoteLevel
  timestamp : Int
deriving DecidableEq, Repr, Inhabited

/-- Model of `model::Instrument`. -/
structure Instrument where
  instrument_name : String
  currency : Currency
  is_usdc_settled : Bool
  is_combo : Bool
  option_kind : OptionKind
  strike : ℚ
  expiry : Int
  contract_size : ℚ
  settlement_currency : SettlementCurrency
  tick_size : ℚ
  min_trade_amount : ℚ
deriving DecidableEq, Repr, Inhabited

/-- Model of `model::InstrumentSnapshot`. -/
structure InstrumentSnapshot where
  instrument : Instrument
  quote : Quote
  order_book : Option OrderBook
deriving DecidableEq, Repr, Inhabited

/-- Model of `model::ComboLeg`.  The field `mult` models the source field
`ratio : i32` (a positive leg multiplicity). -/
structure ComboLeg where
  instrument_name : String
  mult : Int
  side : ComboSide
deriving DecidableEq, Repr, Inhabited

/-- Model of `model::LegTouch`. -/
structure LegTouch where
  instrument_name : String
  side : ComboSide
  price : ℚ
  size_contracts : ℚ
deriving DecidableEq, Repr, Inhabited

/-- Model of `model::LegFee`. -/
structure LegFee where
  instrument_name : String
  side : ComboSide
  settlement : SettlementCurrency
  execution_role : FillRole
  trade_fee_native : ℚ
  trade_fee_usd : ℚ
deriving DecidableEq, Repr, Inhabited

/-- Model of `model::FeeBreakdown`. -/
structure FeeBreakdown where
  legs : List LegFee
  combo_discount : ℚ
  combo_discount_usd : ℚ
  delivery_fee : ℚ
  delivery_fee_usd : ℚ
  total_native : ℚ
  total_usd : ℚ
deriving DecidableEq, Repr, Inhabited

/-- One leg of the structured `create_payload` JSON the detectors build
(`{"instrument_name": .., "ratio": .., "direction": ..}`). -/
structure PayloadLeg where
  instrument_name : String
  mult : Int
  direction : String
deriving DecidableEq, Repr, Inhabited

/-- The structured content of the `serde_json` combo-creation payload
(`{"legs": [..], "amount": ..}`). -/
structure CreatePayload where
  legs : List PayloadLeg
  amount : ℚ
deriving DecidableEq, Repr, Inhabited

/-- Model of `model::ComboExecutionPlan`. -/
structure ComboExecutionPlan where
  create_payload : CreatePayload
  tif : OrderTimeInForce
  price_limit : ℚ
  dry_run : Bool
deriving DecidableEq, Repr, Inhabited

/-- Model of `model::StrategyOpportunity`. -/
structure StrategyOpportunity where
  strategy : StrategyKind
  currency : Currency
  settlement : SettlementCurrency
  expiry : List Int
  strikes : List ℚ
  legs : List ComboLeg
  touches : List LegTouch
  total_cost : ℚ
  max_payout : ℚ
  fee_breakdown : FeeBreakdown
  net_edge_native : ℚ
  net_edge_usd : ℚ
  notional_usd : ℚ
  reference_index : ℚ
  edge_bps : ℚ
  size_contracts : ℚ
deriving DecidableEq, Repr, Inhabited

/-- Model of `model::StrategyFilter`.  The field `included` models the source
field `include` (a Lean keyword). -/
structure StrategyFilter where
  included : List StrategyKind
deriving DecidableEq, Repr, Inhabited

/-- Model of `StrategyFilter::allows`. -/
def StrategyFilter.allows (f : StrategyFilter) (strategy : StrategyKind) : Bool :=
  f.included.contains strategy

/-- Model of `config::AppConfig`, restricted to the fields the engine core
reads (the I/O configuration — environment, credentials, currency and
settlement scan lists — is consumed by the out-of-scope transport layer).
`min_edge_ratio_q` models the `f64` field `min_edge_ratio` as an exact
rational. -/
structure AppConfig where
  dry_run : Bool
  max_ticket_usd : ℚ
  min_edge_usd : ℚ
  min_edge_ratio_q : ℚ
  hold_to_expiry : Bool
  strategy_filter : StrategyFilter
  max_concurrent_combos : Nat
  min_depth_contracts : Nat
deriving DecidableEq, Repr, Inhabited

/-! ## Fee engine (`fees/mod.rs`) -/

/-- Model of `fees::LegFeeInput`. -/
structure LegFeeInput where
  instrument_name : String
  side : ComboSide
  settlement : SettlementCurrency
  role : FillRole
  option_price : ℚ
  index_price : ℚ
  contracts : ℚ
  contract_size : ℚ
  expiry : Int
  is_daily : Bool
deriving DecidableEq, Repr, Inhabited

/-- Model of `fees::FeeComputationContext`. -/
structure FeeComputationContext where
  legs : List LegFeeInput
  hold_to_expiry : Bool
deriving DecidableEq, Repr, Inhabited

/-- Model of `fees::compute_trade_fee`.  The source returns
`Result<LegFee>` but has no error path, so the embedding is a total
function. -/
def computeTradeFee (input : LegFeeInput) : LegFee :=
  let contracts := |input.contracts|
  if contracts = 0 then
    { instrument_name := input.instrument_name, side := input.side,
      settlement := input.settlement, execution_role := input.role,
      trade_fee_native := 0, trade_fee_usd := 0 }
  else
    let feePair : ℚ × ℚ :=
      match input.settlement with
      | .coin =>
        let max_pct := input.option_price * (0.125 : ℚ)
        let per_contract_fee := if (0.0003 : ℚ) < max_pct then (0.0003 : ℚ) else max_pct
        let total_native := per_contract_fee * contracts * input.contract_size
        (total_native, total_native * input.index_price)
      | .usdc =>
        let cap := input.option_price * (0.125 : ℚ)
        let base := input.index_price * (0.0003 : ℚ)
        let per_contract_fee := if base < cap then base else cap
        let total_native := per_contract_fee * contracts * input.contract_size
        (total_native, total_native)
    { instrument_name := input.instrument_name, side := input.side,
      settlement := input.settlement, execution_role := input.role,
      trade_fee_native := feePair.1, trade_fee_usd := feePair.2 }

/-- The waiver closure of `FeeEngine::compute`: zero out the trade fees of
legs on the waived side. -/
def waiveFee (waived : ComboSide) (fee : LegFee) : LegFee :=
  if fee.side = waived then { fee with trade_fee_native := 0, trade_fee_usd := 0 } else fee

/-- Single-pass side total over leg fees, as accumulated by the source's
`for fee in &leg_fees` loop in `FeeEngine::compute`. -/
def sideTotal (proj : LegFee → ℚ) (side : ComboSide) (fees : List LegFee) : ℚ :=
  fees.foldl (fun acc fee => if fee.side = side then acc + proj fee else acc) 0

/-- The per-leg delivery term of `FeeEngine::compute`'s `hold_to_expiry`
loop, as `(delivery_fee_native, delivery_fee_usd)`; a daily leg contributes
nothing (`continue`). -/
def deliveryFeePair (leg : LegFeeInput) : ℚ × ℚ :=
  if leg.is_daily then (0, 0)
  else
    let contracts := |leg.contracts| * leg.contract_size
    let notional_usd := leg.index_price * contracts
    let option_value_usd := leg.option_price * contracts *
      (match leg.settlement with
       | .usdc => 1
       | .coin => leg.index_price)
    let delivery_fee_usd :=
      min (notional_usd * (0.00015 : ℚ)) (option_value_usd * (0.125 : ℚ))
    let delivery_fee_native :=
      match leg.settlement with
      | .usdc => delivery_fee_usd
      | .coin => if leg.index_price = 0 then 0 else delivery_fee_usd / leg.index_price
    (delivery_fee_native, delivery_fee_usd)

/-- The delivery-fee accumulation in `FeeEngine::compute` (the
`hold_to_expiry` loop), returning `(delivery_native, delivery_usd)`. -/
def deliveryTotals (legs : List LegFeeInput) : ℚ × ℚ :=
  legs.foldl
    (fun acc leg => (acc.1 + (deliveryFeePair leg).1, acc.2 + (deliveryFeePair leg).2))
    (0, 0)

/-- Model of `FeeEngine::compute`. -/
def FeeEngine.compute (ctx : FeeComputationContext) : Except String FeeBreakdown :=
  match ctx.legs with
  | [] => .error "no legs provided"
  | leg0 :: _ =>
    let settlement := leg0.settlement
    if ctx.legs.all (fun leg => leg.settlement = settlement) then
      let leg_fees := ctx.legs.map computeTradeFee
      let buy_total_native := sideTotal (·.trade_fee_native) .buy leg_fees
      let sell_total_native := sideTotal (·.trade_fee_native) .sell leg_fees
      let buy_total_usd := sideTotal (·.trade_fee_usd) .buy leg_fees
      let sell_total_usd := sideTotal (·.trade_fee_usd) .sell leg_fees
      let waived : ComboSide := if buy_total_usd ≤ sell_total_usd then .buy else .sell
      let leg_fees2 := leg_fees.map (waiveFee waived)
      let discountPair : ℚ × ℚ :=
        if buy_total_usd ≤ sell_total_usd then (buy_total_native, buy_total_usd)
        else (sell_total_native, sell_total_usd)
      let deliveryPair : ℚ × ℚ := if ctx.hold_to_expiry then deliveryTotals ctx.legs else (0, 0)
      let total_native :=
        leg_fees2.foldl (fun acc fee => acc + fee.trade_fee_native) 0 + deliveryPair.1
      let total_usd :=
        leg_fees2.foldl (fun acc fee => acc + fee.trade_fee_usd) 0 + deliveryPair.2
      .ok { legs := leg_fees2,
            combo_discount := discountPair.1,
            combo_discount_usd := discountPair.2,
            delivery_fee := deliveryPair.1,
            delivery_fee_usd := deliveryPair.2,
            total_native := total_native,
            total_usd := total_usd }
    else .error "mixed settlement combos not supported"

/-! ## Risk gate (`risk/mod.rs`) -/

/-- Model of `risk::RiskState` (`live_combos : u32`, `ewma_pnl : Decimal`).
`live_combos` is modelled as `Nat`: `approve` only increments it below
`max_concurrent_combos : u32`, so the counter never overflows `u32`. -/
structure RiskState where
  live_combos : Nat
  ewma_pnl : ℚ
deriving DecidableEq, Repr, Inhabited

/-- Model of `RiskManager::approve`: state-passing form of the mutex-guarded
update, returning the boolean decision together with the updated state. -/
def RiskManager.approve (cfg : AppConfig) (opp : StrategyOpportunity) (s : RiskState) :
    Bool × RiskState :=
  if cfg.max_concurrent_combos ≤ s.live_combos then (false, s)
  else if cfg.max_ticket_usd < opp.notional_usd then (false, s)
  else if s.ewma_pnl < 0 then (false, s)
  else (true, { s with live_combos := s.live_combos + 1 })

/-- Model of `RiskManager::release` (saturating decrement). -/
def RiskManager.release (s : RiskState) : RiskState :=
  if 0 < s.live_combos then { s with live_combos := s.live_combos - 1 } else s

/-- Model of `RiskManager::record_pnl` (EWMA update with `alpha = 0.2`,
the source's `Decimal::new(2, 1)`). -/
def RiskManager.recordPnl (pnl_usd : ℚ) (s : RiskState) : RiskState :=
  { s with ewma_pnl := (1 - (0.2 : ℚ)) * s.ewma_pnl + (0.2 : ℚ) * pnl_usd }

/-! ## Option chain store (`chain/mod.rs`)

The concurrent `Arc<RwLock<HashMap<String, InstrumentSnapshot>>>` is modelled
as an association list with unique keys; each lock-guarded operation is a pure
state transformer.  `Utc::now()` is passed explicitly as `now`. -/

/-- The guarded mapping held by `OptionChain`. -/
abbrev ChainMap : Type := List (String × InstrumentSnapshot)

/-- Lookup by instrument name (model of `HashMap::get`). -/
def chainLookup (m : ChainMap) (name : String) : Option InstrumentSnapshot :=
  match m with
  | [] => none
  | e :: rest => if e.1 = name then some e.2 else chainLookup rest name

/-- The empty quote created by `OptionChain::upsert_instrument` for a new name
(`timestamp = now`, `index_price = Default::default() = 0`). -/
def emptyQuote (now : Int) : Quote :=
  { best_bid := none, best_ask := none, mark_iv := none, bid_iv := none,
    ask_iv := none, interest_rate := none, timestamp := now, index_price := 0 }

/-- The `and_modify` closure of `upsert_instrument`: replace only the
`instrument` field of a snapshot. -/
def replaceInstrument (instrument : Instrument) (s : InstrumentSnapshot) : InstrumentSnapshot :=
  { s with instrument := instrument }

/-- Model of `OptionChain::upsert_instrument`
(`entry(..).and_modify(..).or_insert(..)`). -/
def OptionChain.upsertInstrument (now : Int) (instrument : Instrument) (m : ChainMap) : ChainMap :=
  match chainLookup m instrument.instrument_name with
  | some _ =>
    m.map (fun e =>
      if e.1 = instrument.instrument_name then (e.1, replaceInstrument instrument e.2) else e)
  | none =>
    m ++ [(instrument.instrument_name,
           { instrument := instrument, quote := emptyQuote now, order_book := none })]

/-- Model of `OptionChain::update_quote` (no-op on an unknown name). -/
def OptionChain.updateQuote (name : String) (quote : Quote) (m : ChainMap) : ChainMap :=
  m.map (fun e => if e.1 = name then (e.1, { e.2 with quote := quote }) else e)

/-- Model of `OptionChain::update_order_book` (no-op on an unknown name). -/
def OptionChain.updateOrderBook (name : String) (book : OrderBook) (m : ChainMap) : ChainMap :=
  m.map (fun e => if e.1 = name then (e.1, { e.2 with order_book := some book }) else e)

/-! ## Detector suite (`detect/mod.rs`) -/

/-- Check whether the pattern occurs at the head of the list. -/
def startsWithSeq : List Char → List Char → Bool
  | [], _ => true
  | _ :: _, [] => false
  | p :: ps, c :: cs => p = c && startsWithSeq ps cs

/-- Check whether the pattern occurs anywhere in the list
(model of `str::contains` for a literal pattern). -/
def containsSeq (pat : List Char) : List Char → Bool
  | [] => startsWithSeq pat []
  | c :: cs => startsWithSeq pat (c :: cs) || containsSeq pat cs

/-- Model of `detect::is_daily_option`: the name contains `"-D"`, or expiry is
within 24 hours of `now` (`Duration::days(1)` = 86400 seconds). -/
def isDailyOption (now : Int) (name : String) (expiry : Int) : Bool :=
  containsSeq ['-', 'D'] name.toList || decide (expiry - now ≤ 86400)

/-- Model of `detect::compute_edge_bps` (an informational `f64`, modelled as
an exact rational). -/
def computeEdgeBps (net_edge_usd contracts index_price : ℚ)
    (settlement : SettlementCurrency) : ℚ :=
  if contracts = 0 ∨ index_price = 0 then 0
  else
    let base :=
      match settlement with
      | .usdc => index_price * contracts
      | .coin => index_price * contracts
    net_edge_usd / base * 10000

/-- The `Option::max`/`unwrap_or` chain in `max_contracts_from_ticket`:
`best_ask.map(amount).max(best_bid.map(amount)).unwrap_or(min_depth)`. -/
def availableAmount (cfg : AppConfig) (inst : InstrumentSnapshot) : ℚ :=
  match inst.quote.best_ask, inst.quote.best_bid with
  | some a, some b => max a.amount b.amount
  | some a, none => a.amount
  | none, some b => b.amount
  | none, none => (cfg.min_depth_contracts : ℚ)

/-- Model of `DetectorSuite::max_contracts_from_ticket`. -/
def maxContractsFromTicket (cfg : AppConfig) (inst : InstrumentSnapshot) : ℚ :=
  let index_price := inst.quote.index_price
  if index_price = 0 then (cfg.min_depth_contracts : ℚ)
  else
    let ticket_cap := cfg.max_ticket_usd
    let notional_per_contract := index_price * inst.instrument.contract_size
    if notional_per_contract = 0 then (cfg.min_depth_contracts : ℚ)
    else
      let available := availableAmount cfg inst
      max (min (ticket_cap / notional_per_contract) available) 0

/-- The depth gate applied to a best-bid/ask level:
`level.filter(|lvl| lvl.amount >= min_depth)`. -/
def depthLevel (cfg : AppConfig) (lvl : Option QuoteLevel) : Option QuoteLevel :=
  match lvl with
  | some l => if (cfg.min_depth_contracts : ℚ) ≤ l.amount then some l else none
  | none => none

/-- Conversion of a native amount to USD by settlement, as matched throughout
the detectors (`Usdc => native, Coin => native * index`). -/
def usdValue (settlement : SettlementCurrency) (native index : ℚ) : ℚ :=
  match settlement with
  | .usdc => native
  | .coin => native * index

/-- Conversion of a USD amount to the native unit, as matched throughout the
detectors (`Coin` divides by the reference index, reporting `0` when the index
is zero). -/
def nativeValue (settlement : SettlementCurrency) (usd index : ℚ) : ℚ :=
  match settlement with
  | .usdc => usd
  | .coin => if index = 0 then 0 else usd / index

/-- Construction of one `LegFeeInput`, shared verbatim by all detectors. -/
def mkLegInput (settlement : SettlementCurrency) (now : Int) (side : ComboSide)
    (inst : InstrumentSnapshot) (price contracts : ℚ) : LegFeeInput :=
  { instrument_name := inst.instrument.instrument_name, side := side,
    settlement := settlement, role := .taker, option_price := price,
    index_price := inst.quote.index_price, contracts := contracts,
    contract_size := inst.instrument.contract_size,
    expiry := inst.instrument.expiry,
    is_daily := isDailyOption now inst.instrument.instrument_name inst.instrument.expiry }

/-- Construction of the `ComboExecutionPlan` (IOC, configured dry-run flag,
structured legs payload), shared by all detectors. -/
def planFor (cfg : AppConfig) (legs : List ComboLeg) (size price_limit : ℚ) :
    ComboExecutionPlan :=
  { create_payload :=
      { legs := legs.map (fun leg =>
          { instrument_name := leg.instrument_name, mult := leg.mult,
            direction := match leg.side with | .buy => "buy" | .sell => "sell" }),
        amount := size },
    tif := .ioc, price_limit := price_limit, dry_run := cfg.dry_run }

/-- The buy/sell leg selection of `detect_verticals` (calls: buy low at ask,
sell high at bid; puts: buy high at ask, sell low at bid), after the depth
gate.  Returns `(buy_inst, buy_quote, sell_inst, sell_quote)`. -/
def verticalSelect (cfg : AppConfig) (low high : InstrumentSnapshot) :
    Option (InstrumentSnapshot × QuoteLevel × InstrumentSnapshot × QuoteLevel) :=
  let ask_low := depthLevel cfg low.quote.best_ask
  let bid_low := depthLevel cfg low.quote.best_bid
  let ask_high := depthLevel cfg high.quote.best_ask
  let bid_high := depthLevel cfg high.quote.best_bid
  match low.instrument.option_kind with
  | .call =>
    match ask_low, bid_high with
    | some a, some b => some (low, a, high, b)
    | _, _ => none
  | .put =>
    match ask_high, bid_low with
    | some a, some b => some (high, a, low, b)
    | _, _ => none

/-- The body of the `detect_verticals` window loop for one adjacent strike
pair; `.ok none` models `continue`. -/
def processVerticalWindow (cfg : AppConfig) (now : Int) (currency : Currency)
    (settlement : SettlementCurrency) (expiry : Int) (low high : InstrumentSnapshot) :
    Except String (Option StrategyOpportunity) :=
  if low.instrument.option_kind ≠ high.instrument.option_kind then .ok none else
  match verticalSelect cfg low high with
  | none => .ok none
  | some (buy_inst, buy_quote, sell_inst, sell_quote) =>
    let size_contracts :=
      min (min buy_quote.amount sell_quote.amount) (maxContractsFromTicket cfg buy_inst)
    if size_contracts ≤ 0 then .ok none else
    let debit_native := buy_quote.price * size_contracts * buy_inst.instrument.contract_size
      - sell_quote.price * size_contracts * sell_inst.instrument.contract_size
    if debit_native < 0 then .ok none else
    let reference_index := buy_inst.quote.index_price
    let debit_usd := usdValue settlement debit_native reference_index
    let strikes_diff := high.instrument.strike - low.instrument.strike
    if strikes_diff ≤ 0 then .ok none else
    let max_payout_usd := strikes_diff * size_contracts * low.instrument.contract_size
    let tolerance_usd := (1 : ℚ) / 1000000
    if max_payout_usd + tolerance_usd < debit_usd then .ok none else
    let max_payout_native := nativeValue settlement max_payout_usd reference_index
    let legs : List ComboLeg :=
      [⟨buy_inst.instrument.instrument_name, 1, .buy⟩,
       ⟨sell_inst.instrument.instrument_name, 1, .sell⟩]
    let touches : List LegTouch :=
      [⟨buy_inst.instrument.instrument_name, .buy, buy_quote.price, size_contracts⟩,
       ⟨sell_inst.instrument.instrument_name, .sell, sell_quote.price, size_contracts⟩]
    let fee_ctx : FeeComputationContext :=
      { legs := [mkLegInput settlement now .buy buy_inst buy_quote.price size_contracts,
                 mkLegInput settlement now .sell sell_inst sell_quote.price size_contracts],
        hold_to_expiry := cfg.hold_to_expiry }
    match FeeEngine.compute fee_ctx with
    | .error e => .error e
    | .ok fee_breakdown =>
      let net_edge_usd := max_payout_usd - debit_usd - fee_breakdown.total_usd
      if net_edge_usd ≤ 0 then .ok none else
      if net_edge_usd < cfg.min_edge_usd then .ok none else
      let fee_guard := max fee_breakdown.total_usd (0.01 : ℚ)
      if net_edge_usd / fee_guard < cfg.min_edge_ratio_q then .ok none else
      .ok (some
        { strategy := .vertical, currency := currency, settlement := settlement,
          expiry := [expiry],
          strikes := [low.instrument.strike, high.instrument.strike],
          legs := legs, touches := touches, total_cost := debit_native,
          max_payout := max_payout_native, fee_breakdown := fee_breakdown,
          net_edge_native := nativeValue settlement net_edge_usd reference_index,
          net_edge_usd := net_edge_usd,
          notional_usd := reference_index * size_contracts * buy_inst.instrument.contract_size,
          reference_index := reference_index,
          edge_bps := computeEdgeBps net_edge_usd size_contracts reference_index settlement,
          size_contracts := size_contracts })

/-- Fold of a per-adjacent-pair body over a list, collecting emitted values;
an error (`?` in the source loop) aborts the whole detector. -/
def collectAdj (f : α → α → Except ε (Option β)) : List α → Except ε (List β)
  | a :: b :: rest =>
    match f a b with
    | .error e => .error e
    | .ok r =>
      match collectAdj f (b :: rest) with
      | .error e => .error e
      | .ok tail => .ok (match r with | some x => x :: tail | none => tail)
  | _ => .ok []

/-- Fold of a per-adjacent-triple body over a list, collecting emitted
values. -/
def collectAdj3 (f : α → α → α → Except ε (Option β)) : List α → Except ε (List β)
  | a :: b :: c :: rest =>
    match f a b c with
    | .error e => .error e
    | .ok r =>
      match collectAdj3 f (b :: c :: rest) with
      | .error e => .error e
      | .ok tail => .ok (match r with | some x => x :: tail | none => tail)
  | _ => .ok []

/-- Fold of a per-group body over grouped items, concatenating results. -/
def collectConcat (f : γ → Except ε (List β)) : List γ → Except ε (List β)
  | [] => .ok []
  | g :: rest =>
    match f g with
    | .error e => .error e
    | .ok r =>
      match collectConcat f rest with
      | .error e => .error e
      | .ok tail => .ok (r ++ tail)

/-- Model of `DetectorSuite::detect_verticals`: sort the group by strike and
process adjacent windows. -/
def detectVerticals (cfg : AppConfig) (now : Int) (instruments : List InstrumentSnapshot)
    (currency : Currency) (settlement : SettlementCurrency) (expiry : Int) :
    Except String (List StrategyOpportunity) :=
  let by_strike :=
    instruments.insertionSort (fun a b => a.instrument.strike ≤ b.instrument.strike)
  collectAdj (processVerticalWindow cfg now currency settlement expiry) by_strike

/-- The body of the `detect_butterflies` window loop for one consecutive
strike triple. -/
def butterflySelect (cfg : AppConfig) (low mid high : InstrumentSnapshot) :
    Option (QuoteLevel × QuoteLevel × QuoteLevel) :=
  match depthLevel cfg low.quote.best_ask, depthLevel cfg mid.quote.best_bid,
        depthLevel cfg high.quote.best_ask with
  | some ask_low, some bid_mid, some ask_high => some (ask_low, bid_mid, ask_high)
  | _, _, _ => none

def processButterflyWindow (cfg : AppConfig) (now : Int) (currency : Currency)
    (settlement : SettlementCurrency) (expiry : Int)
    (low mid high : InstrumentSnapshot) :
    Except String (Option StrategyOpportunity) :=
  match butterflySelect cfg low mid high with
  | none => .ok none
  | some (ask_low, bid_mid, ask_high) =>
    let size_contracts :=
      min (min (min ask_low.amount ask_high.amount) (bid_mid.amount / 2))
        (maxContractsFromTicket cfg low)
    if size_contracts ≤ 0 then .ok none else
    let fly_cost := ask_low.price + ask_high.price - bid_mid.price * 2
    let debit_native := fly_cost * size_contracts * low.instrument.contract_size
    let debit_usd := usdValue settlement debit_native low.quote.index_price
    let legs : List ComboLeg :=
      [⟨low.instrument.instrument_name, 1, .buy⟩,
       ⟨mid.instrument.instrument_name, 2, .sell⟩,
       ⟨high.instrument.instrument_name, 1, .buy⟩]
    let touches : List LegTouch :=
      [⟨low.instrument.instrument_name, .buy, ask_low.price, size_contracts⟩,
       ⟨mid.instrument.instrument_name, .sell, bid_mid.price, size_contracts * 2⟩,
       ⟨high.instrument.instrument_name, .buy, ask_high.price, size_contracts⟩]
    let fee_ctx : FeeComputationContext :=
      { legs := [mkLegInput settlement now .buy low ask_low.price size_contracts,
                 mkLegInput settlement now .sell mid bid_mid.price (size_contracts * 2),
                 mkLegInput settlement now .buy high ask_high.price size_contracts],
        hold_to_expiry := cfg.hold_to_expiry }
    match FeeEngine.compute fee_ctx with
    | .error e => .error e
    | .ok fee_breakdown =>
      let net_edge_usd := -(debit_usd + fee_breakdown.total_usd)
      if net_edge_usd ≤ 0 then .ok none else
      if net_edge_usd < cfg.min_edge_usd then .ok none else
      if net_edge_usd / max fee_breakdown.total_usd (0.01 : ℚ) < cfg.min_edge_ratio_q then
        .ok none
      else
      .ok (some
        { strategy := .butterfly, currency := currency, settlement := settlement,
          expiry := [expiry],
          strikes := [low.instrument.strike, mid.instrument.strike, high.instrument.strike],
          legs := legs, touches := touches, total_cost := debit_native,
          max_payout := (high.instrument.strike - low.instrument.strike)
            * size_contracts * low.instrument.contract_size,
          fee_breakdown := fee_breakdown,
          net_edge_native := nativeValue settlement net_edge_usd low.quote.index_price,
          net_edge_usd := net_edge_usd,
          notional_usd := low.quote.index_price * size_contracts
            * low.instrument.contract_size,
          reference_index := low.quote.index_price,
          edge_bps := computeEdgeBps net_edge_usd size_contracts low.quote.index_price
            settlement,
          size_contracts := size_contracts })

/-- Model of `DetectorSuite::detect_butterflies`. -/
def detectButterflies (cfg : AppConfig) (now : Int) (instruments : List InstrumentSnapshot)
    (currency : Currency) (settlement : SettlementCurrency) (expiry : Int) :
    Except String (List StrategyOpportunity) :=
  let by_strike :=
    instruments.insertionSort (fun a b => a.instrument.strike ≤ b.instrument.strike)
  collectAdj3 (processButterflyWindow cfg now currency settlement expiry) by_strike

def calendarSelect (cfg : AppConfig) (near far : InstrumentSnapshot) :
    Option (QuoteLevel × QuoteLevel) :=
  match depthLevel cfg near.quote.best_bid, depthLevel cfg far.quote.best_ask with
  | some near_bid, some far_ask => some (near_bid, far_ask)
  | _, _ => none

/-- The body of the `detect_calendars` window loop for one adjacent expiry
pair of the same `(currency, strike, settlement, option_kind)` group. -/
def processCalendarPair (cfg : AppConfig) (now : Int) (currency : Currency)
    (settlement : SettlementCurrency) (near far : InstrumentSnapshot) :
    Except String (Option StrategyOpportunity) :=
  if near.instrument.expiry = far.instrument.expiry then .ok none else
  match calendarSelect cfg near far with
  | none => .ok none
  | some (near_bid, far_ask) =>
    let size_contracts :=
      min (min near_bid.amount far_ask.amount) (maxContractsFromTicket cfg near)
    if size_contracts ≤ 0 then .ok none else
    let credit_native := near_bid.price * size_contracts * near.instrument.contract_size
      - far_ask.price * size_contracts * far.instrument.contract_size
    let credit_usd := usdValue settlement credit_native near.quote.index_price
    if credit_usd ≤ 0 then .ok none else
    let legs : List ComboLeg :=
      [⟨near.instrument.instrument_name, 1, .sell⟩,
       ⟨far.instrument.instrument_name, 1, .buy⟩]
    let touches : List LegTouch :=
      [⟨near.instrument.instrument_name, .sell, near_bid.price, size_contracts⟩,
       ⟨far.instrument.instrument_name, .buy, far_ask.price, size_contracts⟩]
    let fee_ctx : FeeComputationContext :=
      { legs := [mkLegInput settlement now .sell near near_bid.price size_contracts,
                 mkLegInput settlement now .buy far far_ask.price size_contracts],
        hold_to_expiry := cfg.hold_to_expiry }
    match FeeEngine.compute fee_ctx with
    | .error e => .error e
    | .ok fee_breakdown =>
      let net_edge_usd := credit_usd - fee_breakdown.total_usd
      if net_edge_usd ≤ 0 then .ok none else
      if net_edge_usd < cfg.min_edge_usd then .ok none else
      if net_edge_usd / max fee_breakdown.total_usd (0.01 : ℚ) < cfg.min_edge_ratio_q then
        .ok none
      else
      .ok (some
        { strategy := .calendar, currency := currency, settlement := settlement,
          expiry := [near.instrument.expiry, far.instrument.expiry],
          strikes := [near.instrument.strike],
          legs := legs, touches := touches, total_cost := credit_native,
          max_payout := 0, fee_breakdown := fee_breakdown,
          net_edge_native := nativeValue settlement net_edge_usd near.quote.index_price,
          net_edge_usd := net_edge_usd,
          notional_usd := near.quote.index_price * size_contracts
            * near.instrument.contract_size,
          reference_index := near.quote.index_price,
          edge_bps := computeEdgeBps net_edge_usd size_contracts near.quote.index_price
            settlement,
          size_contracts := size_contracts })

/-- Grouping key of `detect_calendars`. -/
structure CalKey where
  currency : Currency
  strike : ℚ
  settlement : SettlementCurrency
  kind : OptionKind
deriving DecidableEq, Repr

/-- Insertion into an association-list of groups, preserving first-insertion
key order and per-key element order (the order-irrelevant model of `HashMap`
entry grouping). -/
def insertGrouped [DecidableEq κ] (k : κ) (a : α) :
    List (κ × List α) → List (κ × List α)
  | [] => [(k, [a])]
  | (k0, as0) :: rest =>
    if k = k0 then (k0, as0 ++ [a]) :: rest else (k0, as0) :: insertGrouped k a rest

/-- Group a list by a key function. -/
def groupByKey [DecidableEq κ] (key : α → κ) (l : List α) : List (κ × List α) :=
  l.foldl (fun acc a => insertGrouped (key a) a acc) []

/-- The per-group body of `detect_calendars` (group-size gate, redundant
filter re-check, sort by expiry, adjacent windows). -/
def calendarGroup (cfg : AppConfig) (now : Int) (key : CalKey)
    (instruments : List InstrumentSnapshot) : Except String (List StrategyOpportunity) :=
  if instruments.length < 2 then .ok []
  else if cfg.strategy_filter.allows .calendar then
    let by_expiry :=
      instruments.insertionSort (fun a b => a.instrument.expiry ≤ b.instrument.expiry)
    collectAdj (processCalendarPair cfg now key.currency key.settlement) by_expiry
  else .ok []

/-- Model of `DetectorSuite::detect_calendars`. -/
def detectCalendars (cfg : AppConfig) (now : Int) (snapshot : List InstrumentSnapshot) :
    Except String (List StrategyOpportunity) :=
  let grouped := groupByKey
    (fun i => (⟨i.instrument.currency, i.instrument.strike,
               i.instrument.settlement_currency, i.instrument.option_kind⟩ : CalKey))
    snapshot
  collectConcat (fun g => calendarGroup cfg now g.1 g.2) grouped

/-- The put-leg lookups of `detect_boxes` (`puts.iter().find(..)` at each of
the two call strikes). -/
def boxPutPair (puts : List InstrumentSnapshot) (c_low c_high : InstrumentSnapshot) :
    Option (InstrumentSnapshot × InstrumentSnapshot) :=
  match puts.find? (fun p => p.instrument.strike = c_low.instrument.strike),
        puts.find? (fun p => p.instrument.strike = c_high.instrument.strike) with
  | some p_low, some p_high => some (p_low, p_high)
  | _, _ => none

/-- The depth-gated touches of one box candidate. -/
def boxSelect (cfg : AppConfig) (c_low c_high p_low p_high : InstrumentSnapshot) :
    Option (QuoteLevel × QuoteLevel × QuoteLevel × QuoteLevel) :=
  match depthLevel cfg c_low.quote.best_ask, depthLevel cfg c_high.quote.best_bid,
        depthLevel cfg p_high.quote.best_ask, depthLevel cfg p_low.quote.best_bid with
  | some ask_call_low, some bid_call_high, some ask_put_high, some bid_put_low =>
    some (ask_call_low, bid_call_high, ask_put_high, bid_put_low)
  | _, _, _, _ => none

/-- The body of the `detect_boxes` call-window loop for one adjacent
call-strike pair, with put lookups in the group's sorted put list. -/
def processBoxPair (cfg : AppConfig) (now : Int) (currency : Currency)
    (settlement : SettlementCurrency) (puts : List InstrumentSnapshot)
    (c_low c_high : InstrumentSnapshot) :
    Except String (Option StrategyOpportunity) :=
  match boxPutPair puts c_low c_high with
  | none => .ok none
  | some (p_low, p_high) =>
    match boxSelect cfg c_low c_high p_low p_high with
    | none => .ok none
    | some (ask_call_low, bid_call_high, ask_put_high, bid_put_low) =>
      let size_contracts :=
        min (min (min (min ask_call_low.amount bid_call_high.amount) ask_put_high.amount)
          bid_put_low.amount) (maxContractsFromTicket cfg c_low)
      if size_contracts ≤ 0 then .ok none else
      let legs : List ComboLeg :=
        [⟨c_low.instrument.instrument_name, 1, .buy⟩,
         ⟨c_high.instrument.instrument_name, 1, .sell⟩,
         ⟨p_low.instrument.instrument_name, 1, .sell⟩,
         ⟨p_high.instrument.instrument_name, 1, .buy⟩]
      let touches : List LegTouch :=
        [⟨c_low.instrument.instrument_name, .buy, ask_call_low.price, size_contracts⟩,
         ⟨c_high.instrument.instrument_name, .sell, bid_call_high.price, size_contracts⟩,
         ⟨p_low.instrument.instrument_name, .sell, bid_put_low.price, size_contracts⟩,
         ⟨p_high.instrument.instrument_name, .buy, ask_put_high.price, size_contracts⟩]
      let fee_ctx : FeeComputationContext :=
        { legs := [mkLegInput settlement now .buy c_low ask_call_low.price size_contracts,
                   mkLegInput settlement now .sell c_high bid_call_high.price size_contracts,
                   mkLegInput settlement now .sell p_low bid_put_low.price size_contracts,
                   mkLegInput settlement now .buy p_high ask_put_high.price size_contracts],
          hold_to_expiry := cfg.hold_to_expiry }
      match FeeEngine.compute fee_ctx with
      | .error e => .error e
      | .ok fee_breakdown =>
        let fair_value := (c_high.instrument.strike - c_low.instrument.strike)
          * size_contracts * c_low.instrument.contract_size
        let combo_price := ask_call_low.price - bid_call_high.price - bid_put_low.price
          + ask_put_high.price
        let combo_price_usd := combo_price * size_contracts * c_low.instrument.contract_size
        let net_edge_usd := fair_value - combo_price_usd - fee_breakdown.total_usd
        if net_edge_usd ≤ 0 then .ok none else
        if net_edge_usd < cfg.min_edge_usd then .ok none else
        .ok (some
          { strategy := .box, currency := currency, settlement := settlement,
            expiry := [c_low.instrument.expiry],
            strikes := [c_low.instrument.strike, c_high.instrument.strike],
            legs := legs, touches := touches,
            total_cost := combo_price * size_contracts,
            max_payout := fair_value, fee_breakdown := fee_breakdown,
            net_edge_native := net_edge_usd,
            net_edge_usd := net_edge_usd,
            notional_usd := c_low.quote.index_price * size_contracts
              * c_low.instrument.contract_size,
            reference_index := c_low.quote.index_price,
            edge_bps := computeEdgeBps net_edge_usd size_contracts c_low.quote.index_price
              settlement,
            size_contracts := size_contracts })

/-- Grouping key of `detect_boxes`. -/
structure BoxKey where
  expiry : Int
  settlement : SettlementCurrency
  currency : Currency
deriving DecidableEq, Repr

/-- The per-group body of `detect_boxes`. -/
def boxGroup (cfg : AppConfig) (now : Int) (key : BoxKey)
    (instruments : List InstrumentSnapshot) : Except String (List StrategyOpportunity) :=
  let calls := (instruments.filter
      (fun i => i.instrument.option_kind = OptionKind.call)).insertionSort
    (fun a b => a.instrument.strike ≤ b.instrument.strike)
  let puts := (instruments.filter
      (fun i => i.instrument.option_kind = OptionKind.put)).insertionSort
    (fun a b => a.instrument.strike ≤ b.instrument.strike)
  collectAdj (processBoxPair cfg now key.currency key.settlement puts) calls

/-- Model of `DetectorSuite::detect_boxes` (Usdc-settled snapshots only). -/
def detectBoxes (cfg : AppConfig) (now : Int) (snapshot : List InstrumentSnapshot) :
    Except String (List StrategyOpportunity) :=
  let eligible := snapshot.filter
    (fun i => i.instrument.settlement_currency = SettlementCurrency.usdc)
  let grouped := groupByKey
    (fun i => (⟨i.instrument.expiry, i.instrument.settlement_currency,
               i.instrument.currency⟩ : BoxKey))
    eligible
  collectConcat (fun g => boxGroup cfg now g.1 g.2) grouped

/-- The depth-gated touches of one jelly-roll candidate. -/
def jellySelect (cfg : AppConfig)
    (near_call near_put far_call far_put : InstrumentSnapshot) :
    Option (QuoteLevel × QuoteLevel × QuoteLevel × QuoteLevel) :=
  match depthLevel cfg near_call.quote.best_ask, depthLevel cfg near_put.quote.best_bid,
        depthLevel cfg far_call.quote.best_bid, depthLevel cfg far_put.quote.best_ask with
  | some ask_call_near, some bid_put_near, some bid_call_far, some ask_put_far =>
    some (ask_call_near, bid_put_near, bid_call_far, ask_put_far)
  | _, _, _, _ => none

/-- The body of the `detect_jelly_rolls` window loop for one adjacent expiry
pair; each element carries `(expiry, call snapshot, put snapshot)`. -/
def processJellyPair (cfg : AppConfig) (now : Int) (currency : Currency) (strike : ℚ)
    (settlement : SettlementCurrency)
    (near far : Int × InstrumentSnapshot × InstrumentSnapshot) :
    Except String (Option StrategyOpportunity) :=
  let near_expiry := near.1
  let near_call := near.2.1
  let near_put := near.2.2
  let far_expiry := far.1
  let far_call := far.2.1
  let far_put := far.2.2
  match jellySelect cfg near_call near_put far_call far_put with
  | none => .ok none
  | some (ask_call_near, bid_put_near, bid_call_far, ask_put_far) =>
    let size_contracts :=
      min (min (min (min ask_call_near.amount bid_put_near.amount) bid_call_far.amount)
        ask_put_far.amount) (maxContractsFromTicket cfg near_call)
    if size_contracts ≤ 0 then .ok none else
    let debit_native :=
      ask_call_near.price * size_contracts * near_call.instrument.contract_size
      - bid_put_near.price * size_contracts * near_put.instrument.contract_size
      - bid_call_far.price * size_contracts * far_call.instrument.contract_size
      + ask_put_far.price * size_contracts * far_put.instrument.contract_size
    let reference_index := near_call.quote.index_price
    let debit_usd := usdValue settlement debit_native reference_index
    if 0 ≤ debit_usd then .ok none else
    let fee_ctx : FeeComputationContext :=
      { legs := [mkLegInput settlement now .buy near_call ask_call_near.price size_contracts,
                 mkLegInput settlement now .sell near_put bid_put_near.price size_contracts,
                 mkLegInput settlement now .sell far_call bid_call_far.price size_contracts,
                 mkLegInput settlement now .buy far_put ask_put_far.price size_contracts],
        hold_to_expiry := cfg.hold_to_expiry }
    match FeeEngine.compute fee_ctx with
    | .error e => .error e
    | .ok fee_breakdown =>
      let net_edge_usd := -debit_usd - fee_breakdown.total_usd
      if net_edge_usd ≤ 0 then .ok none else
      if net_edge_usd < cfg.min_edge_usd then .ok none else
      if net_edge_usd / max fee_breakdown.total_usd (0.01 : ℚ) < cfg.min_edge_ratio_q then
        .ok none
      else
      let legs : List ComboLeg :=
        [⟨near_call.instrument.instrument_name, 1, .buy⟩,
         ⟨near_put.instrument.instrument_name, 1, .sell⟩,
         ⟨far_call.instrument.instrument_name, 1, .sell⟩,
         ⟨far_put.instrument.instrument_name, 1, .buy⟩]
      let touches : List LegTouch :=
        [⟨near_call.instrument.instrument_name, .buy, ask_call_near.price, size_contracts⟩,
         ⟨near_put.instrument.instrument_name, .sell, bid_put_near.price, size_contracts⟩,
         ⟨far_call.instrument.instrument_name, .sell, bid_call_far.price, size_contracts⟩,
         ⟨far_put.instrument.instrument_name, .buy, ask_put_far.price, size_contracts⟩]
      .ok (some
        { strategy := .jellyRoll, currency := currency, settlement := settlement,
          expiry := [near_expiry, far_expiry],
          strikes := [strike],
          legs := legs, touches := touches, total_cost := debit_native,
          max_payout := 0, fee_breakdown := fee_breakdown,
          net_edge_native := nativeValue settlement net_edge_usd reference_index,
          net_edge_usd := net_edge_usd,
          notional_usd := near_call.quote.index_price * size_contracts
            * near_call.instrument.contract_size,
          reference_index := reference_index,
          edge_bps := computeEdgeBps net_edge_usd size_contracts reference_index settlement,
          size_contracts := size_contracts })

/-- Grouping key of `detect_jelly_rolls`. -/
structure JellyKey where
  currency : Currency
  strike : ℚ
  settlement : SettlementCurrency
deriving DecidableEq, Repr

/-- The `ExpiryBucket` fold of `detect_jelly_rolls`: the last call and last
put snapshot seen for one expiry. -/
def jellyBucket (members : List InstrumentSnapshot) :
    Option InstrumentSnapshot × Option InstrumentSnapshot :=
  members.foldl
    (fun b i =>
      match i.instrument.option_kind with
      | .call => (some i, b.2)
      | .put => (b.1, some i))
    (none, none)

/-- The per-group body of `detect_jelly_rolls`: bucket per expiry, keep
expiries carrying both a call and a put, sort, process adjacent pairs. -/
def jellyGroup (cfg : AppConfig) (now : Int) (key : JellyKey)
    (instruments : List InstrumentSnapshot) : Except String (List StrategyOpportunity) :=
  let expiryGroups := groupByKey (fun i => i.instrument.expiry) instruments
  let expiries := expiryGroups.filterMap (fun g =>
    match jellyBucket g.2 with
    | (some c, some p) => some (g.1, c, p)
    | _ => none)
  if expiries.length < 2 then .ok []
  else
    let sorted := expiries.insertionSort (fun a b => a.1 ≤ b.1)
    collectAdj (processJellyPair cfg now key.currency key.strike key.settlement) sorted

/-- Model of `DetectorSuite::detect_jelly_rolls`. -/
def detectJellyRolls (cfg : AppConfig) (now : Int) (snapshot : List InstrumentSnapshot) :
    Except String (List StrategyOpportunity) :=
  let grouped := groupByKey
    (fun i => (⟨i.instrument.currency, i.instrument.strike,
               i.instrument.settlement_currency⟩ : JellyKey))
    snapshot
  collectConcat (fun g => jellyGroup cfg now g.1 g.2) grouped

/-- Grouping key of `detect::group_by_expiry` (the source's `StrategyKindKey`
is the option kind). -/
structure GroupKey where
  currency : Currency
  expiry : Int
  settlement : SettlementCurrency
  kind : OptionKind
deriving DecidableEq, Repr

/-- Model of `detect::group_by_expiry`. -/
def groupByExpiry (snapshot : List InstrumentSnapshot) :
    List (GroupKey × List InstrumentSnapshot) :=
  groupByKey
    (fun i => (⟨i.instrument.currency, i.instrument.expiry,
               i.instrument.settlement_currency, i.instrument.option_kind⟩ : GroupKey))
    snapshot

/-- The per-group phase of `DetectorSuite::scan`: verticals then butterflies
for each `(currency, expiry, settlement, kind)` group, in group order.  A
detector error (`if let Ok(..)`) contributes nothing. -/
def scanGroups (cfg : AppConfig) (now : Int) :
    List (GroupKey × List InstrumentSnapshot) → List StrategyOpportunity
  | [] => []
  | (key, insts) :: rest =>
    let verts :=
      if cfg.strategy_filter.allows .vertical then
        match detectVerticals cfg now insts key.currency key.settlement key.expiry with
        | .ok v => v
        | .error _ => []
      else []
    let flies :=
      if cfg.strategy_filter.allows .butterfly then
        match detectButterflies cfg now insts key.currency key.settlement key.expiry with
        | .ok v => v
        | .error _ => []
      else []
    verts ++ flies ++ scanGroups cfg now rest

/-- The unsorted opportunity list accumulated by `DetectorSuite::scan` before
the final merge sort. -/
def collectOpportunities (cfg : AppConfig) (now : Int)
    (snapshot : List InstrumentSnapshot) : List StrategyOpportunity :=
  let base := scanGroups cfg now (groupByExpiry snapshot)
  let base := base ++
    (if cfg.strategy_filter.allows .calendar then
      match detectCalendars cfg now snapshot with
      | .ok v => v
      | .error _ => []
    else [])
  let base := base ++
    (if cfg.strategy_filter.allows .box then
      match detectBoxes cfg now snapshot with
      | .ok v => v
      | .error _ => []
    else [])
  base ++
    (if cfg.strategy_filter.allows .jellyRoll then
      match detectJellyRolls cfg now snapshot with
      | .ok v => v
      | .error _ => []
    else [])

/-- Model of `DetectorSuite::scan`: collect all detector output, then stably
sort by descending `net_edge_usd`
(`sort_by(|a, b| b.net_edge_usd.cmp(&a.net_edge_usd))`). -/
def DetectorSuite.scan (cfg : AppConfig) (now : Int)
    (snapshot : List InstrumentSnapshot) : List StrategyOpportunity :=
  (collectOpportunities cfg now snapshot).insertionSort
    (fun a b => b.net_edge_usd ≤ a.net_edge_usd)

/-! ## Instrument-name parser (`model/mod.rs`)

Strings are modelled as `List Char` (the names in play are ASCII, where
Rust's byte indexing and Lean's character indexing agree).  The informational
payload strings carried by `ParseInstrumentError` variants are elided; only
the variant matters to callers. -/

/-- Model of `model::ParseInstrumentError` (payload strings elided). -/
inductive ParseInstrumentError where
  | invalidFormat
  | unknownCurrency
  | unknownOptionKind
  | invalidExpiry
  | invalidStrike
deriving DecidableEq, Repr, Inhabited

/-- Model of `model::ParsedInstrumentName`. -/
structure ParsedInstrumentName where
  currency : Currency
  day : Nat
  month : List Char
  year : Nat
  strike : ℚ
  option_kind : OptionKind
deriving DecidableEq, Repr, Inhabited

/-- Split on a separator character, keeping empty parts
(model of Rust `str::split(sep)`). -/
def splitOnChar (sep : Char) : List Char → List (List Char)
  | [] => [[]]
  | c :: rest =>
    if c = sep then [] :: splitOnChar sep rest
    else
      match splitOnChar sep rest with
      | h :: t => (c :: h) :: t
      | [] => [[c]]

/-- Model of `Currency::from_str` (match after ASCII uppercasing). -/
def parseCurrency (cs : List Char) : Except ParseInstrumentError Currency :=
  let u := cs.map Char.toUpper
  if u = ['B', 'T', 'C'] then .ok .btc
  else if u = ['E', 'T', 'H'] then .ok .eth
  else .error .unknownCurrency

/-- Model of `OptionKind::from_str` (match after ASCII uppercasing). -/
def parseOptionKind (cs : List Char) : Except ParseInstrumentError OptionKind :=
  let u := cs.map Char.toUpper
  if u = ['C'] ∨ u = ['C', 'A', 'L', 'L'] then .ok .call
  else if u = ['P'] ∨ u = ['P', 'U', 'T'] then .ok .put
  else .error .unknownOptionKind

/-- Value of a list of ASCII digits. -/
def digitsToNat (cs : List Char) : Nat :=
  cs.foldl (fun acc c => acc * 10 + (c.toNat - 48)) 0

/-- Model of `u32::from_str`: an optional leading `+`, then one or more ASCII
digits, with the value below `2^32`. -/
def parseU32 (cs : List Char) : Option Nat :=
  let ds := match cs with
    | '+' :: rest => rest
    | rest => rest
  if ds.isEmpty then none
  else if ds.all Char.isDigit then
    let v := digitsToNat ds
    if v < 4294967296 then some v else none
  else none

/-- Model of `rust_decimal::Decimal::from_str` for the strike field: an
optional sign, decimal digits with at most one decimal point and optional
underscore separators, at most 28 significant digits (longer inputs, which
the crate rounds or rejects and which cannot occur in instrument strikes,
are modelled as an error). -/
def parseDecimal (cs : List Char) : Option ℚ :=
  let sign : ℚ := if cs.head? = some '-' then -1 else 1
  let rest := if cs.head? = some '-' ∨ cs.head? = some '+' then cs.tail else cs
  let body := rest.filter (fun c => c ≠ '_')
  match splitOnChar '.' body with
  | [ip] =>
    if ip ≠ [] ∧ ip.all Char.isDigit ∧ ip.length ≤ 28 then
      some (sign * (digitsToNat ip : ℚ))
    else none
  | [ip, fp] =>
    if (ip ++ fp) ≠ [] ∧ (ip ++ fp).all Char.isDigit ∧ (ip ++ fp).length ≤ 28 then
      some (sign * ((digitsToNat ip : ℚ) + (digitsToNat fp : ℚ) / (10 : ℚ) ^ fp.length))
    else none
  | _ => none

/-- Model of `ParsedInstrumentName::from_str`
(format `CCY-dMMMyy-STRIKE-K`, e.g. `BTC-25MAR23-42000-C`). -/
def parseInstrumentName (s : List Char) :
    Except ParseInstrumentError ParsedInstrumentName :=
  match splitOnChar '-' s with
  | [p0, p1, p2, p3] =>
    match parseCurrency p0 with
    | .error e => .error e
    | .ok currency =>
      if p1.length < 6 then .error .invalidExpiry
      else
        let year_suffix := p1.drop (p1.length - 2)
        let month := ((p1.drop (p1.length - 5)).take 3).map Char.toUpper
        let day_str := p1.take (p1.length - 5)
        match parseU32 day_str with
        | none => .error .invalidExpiry
        | some day =>
          match parseU32 ('2' :: '0' :: year_suffix) with
          | none => .error .invalidExpiry
          | some year =>
            match parseDecimal p2 with
            | none => .error .invalidStrike
            | some strike =>
              match parseOptionKind p3 with
              | .error e => .error e
              | .ok option_kind =>
                .ok { currency := currency, day := day, month := month,
                      year := year, strike := strike, option_kind := option_kind }
  | _ => .error .invalidFormat

/-- Month-name lookup of `ParsedInstrumentName::expiry_date`. -/
def monthNumber (m : List Char) : Option Nat :=
  if m = ['J', 'A', 'N'] then some 1
  else if m = ['F', 'E', 'B'] then some 2
  else if m = ['M', 'A', 'R'] then some 3
  else if m = ['A', 'P', 'R'] then some 4
  else if m = ['M', 'A', 'Y'] then some 5
  else if m = ['J', 'U', 'N'] then some 6
  else if m = ['J', 'U', 'L'] then some 7
  else if m = ['A', 'U', 'G'] then some 8
  else if m = ['S', 'E', 'P'] then some 9
  else if m = ['O', 'C', 'T'] then some 10
  else if m = ['N', 'O', 'V'] then some 11
  else if m = ['D', 'E', 'C'] then some 12
  else none

/-- Gregorian leap-year rule (as used by `chrono::NaiveDate`). -/
def isLeapYear (y : Nat) : Bool :=
  y % 4 == 0 && (y % 100 != 0 || y % 400 == 0)

/-- Days in a month of the proleptic Gregorian calendar. -/
def daysInMonth (y m : Nat) : Nat :=
  if m = 2 then (if isLeapYear y then 29 else 28)
  else if m = 4 ∨ m = 6 ∨ m = 9 ∨ m = 11 then 30
  else 31

/-- A wall-clock UTC date-time, the result of `NaiveDate::and_hms_opt`
tagged with `Utc`. -/
structure UtcDateTime where
  year : Nat
  month : Nat
  day : Nat
  hour : Nat
  minute : Nat
  second : Nat
deriving DecidableEq, Repr, Inhabited

/-- Model of `ParsedInstrumentName::expiry_date`: month-name lookup, calendar
validity via `NaiveDate::from_ymd_opt`, then 08:00:00 UTC (`and_hms_opt(8, 0, 0)`
never fails).  The parser only produces years in `2000..=2099`, far inside
chrono's representable year range. -/
def ParsedInstrumentName.expiryDate (p : ParsedInstrumentName) :
    Except ParseInstrumentError UtcDateTime :=
  match monthNumber p.month with
  | none => .error .invalidExpiry
  | some m =>
    if 1 ≤ p.day ∧ p.day ≤ daysInMonth p.year m then
      .ok ⟨p.year, m, p.day, 8, 0, 0⟩
    else .error .invalidExpiry

/-! ## Spec-side instrument-name grammar (from the specification's words,
for the parser refinement claim) -/

/-- Spec-side text of a currency code. -/
def currencyText : Currency → List Char
  | .btc => ['B', 'T', 'C']
  | .eth => ['E', 'T', 'H']

/-- Spec-side three-letter uppercase month names, indexed 1–12. -/
def monthText (m : Nat) : List Char :=
  if m = 1 then ['J', 'A', 'N'] else if m = 2 then ['F', 'E', 'B']
  else if m = 3 then ['M', 'A', 'R'] else if m = 4 then ['A', 'P', 'R']
  else if m = 5 then ['M', 'A', 'Y'] else if m = 6 then ['J', 'U', 'N']
  else if m = 7 then ['J', 'U', 'L'] else if m = 8 then ['A', 'U', 'G']
  else if m = 9 then ['S', 'E', 'P'] else if m = 10 then ['O', 'C', 'T']
  else if m = 11 then ['N', 'O', 'V'] else if m = 12 then ['D', 'E', 'C']
  else []

/-- Spec-side decimal digit character. -/
def digitChar (n : Nat) : Char := Char.ofNat (48 + n % 10)

/-- Spec-side 1–2-digit day text (no leading zero). -/
def dayText (d : Nat) : List Char :=
  if d < 10 then [digitChar d] else [digitChar (d / 10), digitChar d]

/-- Spec-side 2-digit year text. -/
def yearText (yy : Nat) : List Char := [digitChar (yy / 10), digitChar yy]

/-- Spec-side accepted option-kind spellings (`C`/`CALL`, `P`/`PUT`). -/
def kindStrings : OptionKind → List (List Char)
  | .call => [['C'], ['C', 'A', 'L', 'L']]
  | .put => [['P'], ['P', 'U', 'T']]

/-! ## Theorems -/

/-- C9: `RiskManager::approve` returns true exactly when the combo count is
below `max_concurrent_combos`, the notional is within `max_ticket_usd`, and
the EWMA PnL is non-negative; it increments `live_combos` by one on approval
and leaves the state unchanged on rejection.  `release` decrements
`live_combos`, saturating at zero, and preserves the PnL.  `record_pnl x`
sets `ewma_pnl` to `(1 - 0.2) * ewma_pnl + 0.2 * x`. -/
theorem riskGate_approve_release_recordPnl (cfg : AppConfig)
    (opp : StrategyOpportunity) (s : RiskState) (x : ℚ) :
    ((RiskManager.approve cfg opp s).1 = true ↔
      (s.live_combos < cfg.max_concurrent_combos ∧
       opp.notional_usd ≤ cfg.max_ticket_usd ∧ 0 ≤ s.ewma_pnl)) ∧
    ((RiskManager.approve cfg opp s).1 = true →
      (RiskManager.approve cfg opp s).2 = { s with live_combos := s.live_combos + 1 }) ∧
    ((RiskManager.approve cfg opp s).1 = false →
      (RiskManager.approve cfg opp s).2 = s) ∧
    (RiskManager.release s).live_combos = s.live_combos - 1 ∧
    (RiskManager.release s).ewma_pnl = s.ewma_pnl ∧
    RiskManager.recordPnl x s =
      { s with ewma_pnl := (1 - (0.2 : ℚ)) * s.ewma_pnl + (0.2 : ℚ) * x } := by
  refine ⟨?_, ?_, ?_, ?_, ?_, rfl⟩
  · unfold RiskManager.approve
    split_ifs with h1 h2 h3
    · simp only [Bool.false_eq_true, false_iff]
      rintro ⟨ha, -, -⟩
      omega
    · simp only [Bool.false_eq_true, false_iff]
      rintro ⟨-, hb, -⟩
      exact absurd hb (not_le.mpr h2)
    · simp only [Bool.false_eq_true, false_iff]
      rintro ⟨-, -, hc⟩
      exact absurd hc (not_le.mpr h3)
    · simp only [true_iff]
      exact ⟨by omega, not_lt.mp h2, not_lt.mp h3⟩
  · unfold RiskManager.approve
    split_ifs <;> simp
  · unfold RiskManager.approve
    split_ifs <;> simp
  · unfold RiskManager.release
    split_ifs with h
    · rfl
    · omega
  · unfold RiskManager.release
    split_ifs <;> rfl

/-- Witness for the risk-gate theorem at a concrete state and configuration. -/
theorem riskGate_approve_release_recordPnl_check :
    ((RiskManager.approve
        { dry_run := true, max_ticket_usd := 20000, min_edge_usd := 50,
          min_edge_ratio_q := 2, hold_to_expiry := false,
          strategy_filter := ⟨[]⟩, max_concurrent_combos := 3,
          min_depth_contracts := 1 }
        { (default : StrategyOpportunity) with notional_usd := 100 }
        ⟨1, 5⟩).1 = true ↔
      ((1 : Nat) < 3 ∧ (100 : ℚ) ≤ 20000 ∧ (0 : ℚ) ≤ 5)) ∧
    ((RiskManager.approve
        { dry_run := true, max_ticket_usd := 20000, min_edge_usd := 50,
          min_edge_ratio_q := 2, hold_to_expiry := false,
          strategy_filter := ⟨[]⟩, max_concurrent_combos := 3,
          min_depth_contracts := 1 }
        { (default : StrategyOpportunity) with notional_usd := 100 }
        ⟨1, 5⟩).1 = true →
      (RiskManager.approve
        { dry_run := true, max_ticket_usd := 20000, min_edge_usd := 50,
          min_edge_ratio_q := 2, hold_to_expiry := false,
          strategy_filter := ⟨[]⟩, max_concurrent_combos := 3,
          min_depth_contracts := 1 }
        { (default : StrategyOpportunity) with notional_usd := 100 }
        ⟨1, 5⟩).2 = { (⟨1, 5⟩ : RiskState) with live_combos := 1 + 1 }) ∧
    ((RiskManager.approve
        { dry_run := true, max_ticket_usd := 20000, min_edge_usd := 50,
          min_edge_ratio_q := 2, hold_to_expiry := false,
          strategy_filter := ⟨[]⟩, max_concurrent_combos := 3,
          min_depth_contracts := 1 }
        { (default : StrategyOpportunity) with notional_usd := 100 }
        ⟨1, 5⟩).1 = false →
      (RiskManager.approve
        { dry_run := true, max_ticket_usd := 20000, min_edge_usd := 50,
          min_edge_ratio_q := 2, hold_to_expiry := false,
          strategy_filter := ⟨[]⟩, max_concurrent_combos := 3,
          min_depth_contracts := 1 }
        { (default : StrategyOpportunity) with notional_usd := 100 }
        ⟨1, 5⟩).2 = ⟨1, 5⟩) ∧
    (RiskManager.release ⟨1, 5⟩).live_combos = 1 - 1 ∧
    (RiskManager.release ⟨1, 5⟩).ewma_pnl = 5 ∧
    RiskManager.recordPnl 7 ⟨1, 5⟩ =
      { (⟨1, 5⟩ : RiskState) with ewma_pnl := (1 - (0.2 : ℚ)) * 5 + (0.2 : ℚ) * 7 } :=
  riskGate_approve_release_recordPnl _ _ _ _

/-- Lookup after an entry-preserving map: only the targeted name's snapshot is
transformed. -/
theorem chainLookup_mapEntry (m : ChainMap) (name : String)
    (g : InstrumentSnapshot → InstrumentSnapshot) (n : String) :
    chainLookup (m.map (fun e => if e.1 = name then (e.1, g e.2) else e)) n =
      if n = name then (chainLookup m n).map g else chainLookup m n := by
  induction m with
  | nil =>
    simp only [List.map_nil, chainLookup, Option.map_none]
    split <;> rfl
  | cons e rest ih =>
    simp only [List.map_cons]
    by_cases he : e.1 = name <;> by_cases hn : e.1 = n
    · have hnm : n = name := by rw [← hn, he]
      simp [chainLookup, he, hn, hnm]
    · have hmn : ¬ name = n := fun hc => hn (by rw [he, hc])
      by_cases hnm : n = name <;> simp [chainLookup, he, hn, hnm, hmn, ih]
    · have hnm : ¬ n = name := fun hc => he (by rw [hn, hc])
      simp [chainLookup, he, hn, hnm]
    · by_cases hnm : n = name
      · subst hnm
        simp [chainLookup, he, hn, ih]
      · simp [chainLookup, he, hn, hnm, ih]

/-- Lookup after appending a single new entry at the back. -/
theorem chainLookup_append_single (m : ChainMap) (k : String)
    (v : InstrumentSnapshot) (n : String) :
    chainLookup (m ++ [(k, v)]) n =
      match chainLookup m n with
      | some x => some x
      | none => if k = n then some v else none := by
  induction m with
  | nil => simp [chainLookup]
  | cons e rest ih =>
    by_cases hn : e.1 = n
    · simp [chainLookup, hn]
    · simp [chainLookup, hn, ih]

/-- C7: `upsert_instrument` on a present name replaces only the snapshot's
`instrument` field, preserving that entry's quote and order book; on a new
name it inserts a snapshot with the empty quote (no bid, no ask,
`index_price = 0`, `timestamp = now`) and no order book; every other name's
entry is unchanged. -/
theorem upsertInstrument_frame (m : ChainMap) (now : Int) (i : Instrument) :
    (chainLookup (OptionChain.upsertInstrument now i m) i.instrument_name =
      match chainLookup m i.instrument_name with
      | some old => some { old with instrument := i }
      | none => some { instrument := i, quote := emptyQuote now, order_book := none }) ∧
    (∀ n, n ≠ i.instrument_name →
      chainLookup (OptionChain.upsertInstrument now i m) n = chainLookup m n) := by
  unfold OptionChain.upsertInstrument
  cases hm : chainLookup m i.instrument_name with
  | some old =>
    constructor
    · dsimp only
      rw [chainLookup_mapEntry m i.instrument_name (replaceInstrument i), if_pos rfl, hm]
      rfl
    · intro n hn
      dsimp only
      rw [chainLookup_mapEntry m i.instrument_name (replaceInstrument i), if_neg hn]
  | none =>
    constructor
    · dsimp only
      rw [chainLookup_append_single, hm, if_pos rfl]
    · intro n hn
      dsimp only
      rw [chainLookup_append_single]
      cases hx : chainLookup m n with
      | some x => rfl
      | none =>
        rw [if_neg]
        intro hc
        exact hn hc.symm

/-- A one-entry chain instrument used to instantiate the chain-store theorem. -/
def chainInstOld : Instrument :=
  { (default : Instrument) with instrument_name := "BTC-25DEC24-40000-C" }

/-- A refreshed instrument with the same name and a new strike. -/
def chainInstNew : Instrument :=
  { (default : Instrument) with instrument_name := "BTC-25DEC24-40000-C", strike := 40000 }

/-- The concrete chain contents before the upsert. -/
def chainMapEx : ChainMap :=
  [("BTC-25DEC24-40000-C",
    { instrument := chainInstOld,
      quote := { (emptyQuote 5) with index_price := 40000 },
      order_book := none })]

/-- Witness for the chain-store frame theorem on a concrete one-entry chain. -/
theorem upsertInstrument_frame_check :
    (chainLookup (OptionChain.upsertInstrument 1000 chainInstNew chainMapEx)
        chainInstNew.instrument_name =
      match chainLookup chainMapEx chainInstNew.instrument_name with
      | some old => some { old with instrument := chainInstNew }
      | none => some { instrument := chainInstNew, quote := emptyQuote 1000,
                       order_book := none }) ∧
    (∀ n, n ≠ chainInstNew.instrument_name →
      chainLookup (OptionChain.upsertInstrument 1000 chainInstNew chainMapEx) n =
        chainLookup chainMapEx n) :=
  upsertInstrument_frame chainMapEx 1000 chainInstNew

/-- C5: `FeeEngine::compute` rejects an empty leg list and mixed-settlement
legs with the corresponding `InvalidInput`-style errors, and succeeds on
every non-empty context of uniform settlement. -/
theorem feeEngine_input_validation (ctx : FeeComputationContext) :
    (ctx.legs = [] → FeeEngine.compute ctx = .error "no legs provided") ∧
    ((∃ l1 ∈ ctx.legs, ∃ l2 ∈ ctx.legs, l1.settlement ≠ l2.settlement) →
      FeeEngine.compute ctx = .error "mixed settlement combos not supported") ∧
    (ctx.legs ≠ [] →
      (∀ l1 ∈ ctx.legs, ∀ l2 ∈ ctx.legs, l1.settlement = l2.settlement) →
      ∃ b, FeeEngine.compute ctx = .ok b) := by
  refine ⟨?_, ?_, ?_⟩
  · intro h
    unfold FeeEngine.compute
    rw [h]
  · rintro ⟨l1, hl1, l2, hl2, hne⟩
    unfold FeeEngine.compute
    cases hl : ctx.legs with
    | nil => rw [hl] at hl1; cases hl1
    | cons leg0 rest =>
      have hcond : ¬ (ctx.legs.all (fun leg => leg.settlement = leg0.settlement) = true) := by
        rw [List.all_eq_true]
        intro hall
        have h1 := hall l1 hl1
        have h2 := hall l2 hl2
        simp only [decide_eq_true_eq] at h1 h2
        exact hne (h1.trans h2.symm)
      rw [hl] at hcond
      dsimp only
      rw [if_neg hcond]
  · intro hne huni
    unfold FeeEngine.compute
    cases hl : ctx.legs with
    | nil => exact absurd hl hne
    | cons leg0 rest =>
      have hcond : ctx.legs.all (fun leg => leg.settlement = leg0.settlement) = true := by
        rw [List.all_eq_true]
        intro leg hleg
        simp only [decide_eq_true_eq]
        exact huni leg hleg leg0 (by rw [hl]; exact List.mem_cons_self leg0 rest)
      rw [hl] at hcond
      dsimp only
      rw [if_pos hcond]
      exact ⟨_, rfl⟩

/-- A concrete mixed-settlement two-leg context. -/
def feeCtxMixed : FeeComputationContext :=
  { legs :=
      [{ instrument_name := "BTC-25DEC24-40000-C", side := .buy, settlement := .usdc,
         role := .taker, option_price := 100, index_price := 40000, contracts := 1,
         contract_size := 1, expiry := 2000000000, is_daily := false },
       { instrument_name := "BTC-25DEC24-45000-C", side := .sell, settlement := .coin,
         role := .taker, option_price := 100, index_price := 40000, contracts := 1,
         contract_size := 1, expiry := 2000000000, is_daily := false }],
    hold_to_expiry := false }

/-- A concrete uniform-settlement two-leg context. -/
def feeCtxUniform : FeeComputationContext :=
  { legs :=
      [{ instrument_name := "BTC-25DEC24-40000-C", side := .buy, settlement := .usdc,
         role := .taker, option_price := 100, index_price := 40000, contracts := 1,
         contract_size := 1, expiry := 2000000000, is_daily := false },
       { instrument_name := "BTC-25DEC24-45000-C", side := .sell, settlement := .usdc,
         role := .taker, option_price := 200, index_price := 40000, contracts := 1,
         contract_size := 1, expiry := 2000000000, is_daily := false }],
    hold_to_expiry := false }

/-- Witness for the fee-engine input-validation theorem: the empty context is
rejected, the concrete mixed context is rejected, the concrete uniform
context succeeds. -/
theorem feeEngine_input_validation_check :
    FeeEngine.compute { legs := [], hold_to_expiry := false } =
      .error "no legs provided" ∧
    FeeEngine.compute feeCtxMixed = .error "mixed settlement combos not supported" ∧
    ∃ b, FeeEngine.compute feeCtxUniform = .ok b :=
  ⟨(feeEngine_input_validation _).1 rfl,
   (feeEngine_input_validation feeCtxMixed).2.1 (by decide),
   (feeEngine_input_validation feeCtxUniform).2.2 (by decide) (by decide)⟩

/-- Generalized-accumulator form of `sideTotal`. -/
theorem sideTotal_acc (proj : LegFee → ℚ) (side : ComboSide) :
    ∀ (l : List LegFee) (acc : ℚ),
      l.foldl (fun a fee => if fee.side = side then a + proj fee else a) acc =
        acc + sideTotal proj side l := by
  intro l
  induction l with
  | nil => intro acc; simp [sideTotal]
  | cons f rest ih =>
    intro acc
    simp only [sideTotal, List.foldl] at *
    by_cases h : f.side = side
    · rw [if_pos h, if_pos h, ih, ih (0 + proj f)]
      try ring
    · rw [if_neg h, if_neg h, ih, ih 0]
      try ring

theorem sideTotal_cons (proj : LegFee → ℚ) (side : ComboSide) (f : LegFee)
    (rest : List LegFee) :
    sideTotal proj side (f :: rest) =
      (if f.side = side then proj f else 0) + sideTotal proj side rest := by
  have h0 : sideTotal proj side (f :: rest)
      = List.foldl (fun a fee => if fee.side = side then a + proj fee else a)
          (if f.side = side then 0 + proj f else 0) rest := rfl
  rw [h0, sideTotal_acc]
  by_cases h : f.side = side
  · rw [if_pos h, if_pos h]
    try ring
  · rw [if_neg h, if_neg h]
    try ring

/-- A side total vanishes when all that side's fees vanish. -/
theorem sideTotal_eq_zero (proj : LegFee → ℚ) (side : ComboSide) (l : List LegFee)
    (h : ∀ f ∈ l, f.side = side → proj f = 0) : sideTotal proj side l = 0 := by
  induction l with
  | nil => simp [sideTotal]
  | cons f rest ih =>
    rw [sideTotal_cons]
    have hr := ih (fun f hf => h f (List.mem_cons_of_mem _ hf))
    by_cases hs : f.side = side
    · rw [if_pos hs, h f (List.mem_cons_self f rest) hs, hr]
      ring
    · rw [if_neg hs, hr]
      ring

/-- A nonzero side total exhibits a leg with a nonzero fee on that side. -/
theorem sideTotal_ne_zero (proj : LegFee → ℚ) (side : ComboSide) (l : List LegFee)
    (h : sideTotal proj side l ≠ 0) : ∃ f ∈ l, f.side = side ∧ proj f ≠ 0 := by
  by_contra hc
  push_neg at hc
  exact h (sideTotal_eq_zero proj side l hc)

/-- A side total is unchanged by waiving the other side. -/
theorem sideTotal_map_waive (proj : LegFee → ℚ) (kept waived : ComboSide)
    (hne : kept ≠ waived) (l : List LegFee) :
    sideTotal proj kept (l.map (waiveFee waived)) = sideTotal proj kept l := by
  induction l with
  | nil => simp [sideTotal]
  | cons f rest ih =>
    simp only [List.map_cons]
    rw [sideTotal_cons, sideTotal_cons, ih]
    unfold waiveFee
    by_cases hw : f.side = waived
    · rw [if_pos hw]
      have h1 : ¬ ({ f with trade_fee_native := 0, trade_fee_usd := 0 } : LegFee).side = kept := by
        simp only []
        rw [hw]
        exact fun hc => hne hc.symm
      have h2 : ¬ f.side = kept := by
        rw [hw]
        exact fun hc => hne hc.symm
      rw [if_neg h1, if_neg h2]
    · rw [if_neg hw]

/-- No leg fee on the given side is nonzero. -/
def sideWaived (legs : List LegFee) (side : ComboSide) : Prop :=
  ∀ f ∈ legs, f.side = side → f.trade_fee_native = 0 ∧ f.trade_fee_usd = 0

/-- Waiving a side indeed leaves it with only zero fees. -/
theorem sideWaived_map_waive (l : List LegFee) (waived : ComboSide) :
    sideWaived (l.map (waiveFee waived)) waived := by
  intro f hf hs
  rcases List.mem_map.mp hf with ⟨g, hg, rfl⟩
  unfold waiveFee at hs ⊢
  by_cases hw : g.side = waived
  · rw [if_pos hw]
    exact ⟨rfl, rfl⟩
  · rw [if_neg hw] at hs ⊢
    exact absurd hs hw

/-- Side totals of fully waived sides vanish. -/
theorem sideWaived_total_zero (legs : List LegFee) (side : ComboSide)
    (h : sideWaived legs side) :
    sideTotal (·.trade_fee_native) side legs = 0 ∧
    sideTotal (·.trade_fee_usd) side legs = 0 :=
  ⟨sideTotal_eq_zero _ _ _ (fun f hf hs => (h f hf hs).1),
   sideTotal_eq_zero _ _ _ (fun f hf hs => (h f hf hs).2)⟩

/-- C3 (amended): on every accepted (non-empty, uniform-settlement) context,
`FeeEngine::compute` waives the side whose pre-discount USD trade-fee total is
smaller or equal — ties waiving Buy — zeroing that side's per-leg fees in both
units, recording the waived side's pre-discount totals as `combo_discount`
(native) and `combo_discount_usd`, and leaving the other side's fees
untouched; hence at most one side has nonzero per-leg trade fees, and exactly
one side does whenever the kept side's pre-discount total is nonzero. -/
theorem feeEngine_combo_discount (ctx : FeeComputationContext)
    (hne : ctx.legs ≠ [])
    (huni : ∀ l1 ∈ ctx.legs, ∀ l2 ∈ ctx.legs, l1.settlement = l2.settlement) :
    ∃ b, FeeEngine.compute ctx = .ok b ∧
      ((sideTotal (·.trade_fee_usd) .buy (ctx.legs.map computeTradeFee) ≤
          sideTotal (·.trade_fee_usd) .sell (ctx.legs.map computeTradeFee) →
        sideWaived b.legs .buy ∧
        b.combo_discount =
          sideTotal (·.trade_fee_native) .buy (ctx.legs.map computeTradeFee) ∧
        b.combo_discount_usd =
          sideTotal (·.trade_fee_usd) .buy (ctx.legs.map computeTradeFee) ∧
        sideTotal (·.trade_fee_native) .buy b.legs = 0 ∧
        sideTotal (·.trade_fee_usd) .buy b.legs = 0 ∧
        sideTotal (·.trade_fee_usd) .sell b.legs =
          sideTotal (·.trade_fee_usd) .sell (ctx.legs.map computeTradeFee) ∧
        (sideTotal (·.trade_fee_usd) .sell (ctx.legs.map computeTradeFee) ≠ 0 →
          ¬ sideWaived b.legs .sell)) ∧
       (sideTotal (·.trade_fee_usd) .sell (ctx.legs.map computeTradeFee) <
          sideTotal (·.trade_fee_usd) .buy (ctx.legs.map computeTradeFee) →
        sideWaived b.legs .sell ∧
        b.combo_discount =
          sideTotal (·.trade_fee_native) .sell (ctx.legs.map computeTradeFee) ∧
        b.combo_discount_usd =
          sideTotal (·.trade_fee_usd) .sell (ctx.legs.map computeTradeFee) ∧
        sideTotal (·.trade_fee_native) .sell b.legs = 0 ∧
        sideTotal (·.trade_fee_usd) .sell b.legs = 0 ∧
        sideTotal (·.trade_fee_usd) .buy b.legs =
          sideTotal (·.trade_fee_usd) .buy (ctx.legs.map computeTradeFee) ∧
        (sideTotal (·.trade_fee_usd) .buy (ctx.legs.map computeTradeFee) ≠ 0 →
          ¬ sideWaived b.legs .buy)) ∧
       (sideWaived b.legs .buy ∨ sideWaived b.legs .sell)) := by
  cases hl : ctx.legs with
  | nil => exact absurd hl hne
  | cons leg0 rest =>
    have hcond : ctx.legs.all (fun leg => leg.settlement = leg0.settlement) = true := by
      rw [List.all_eq_true]
      intro leg hleg
      simp only [decide_eq_true_eq]
      exact huni leg hleg leg0 (by rw [hl]; exact List.mem_cons_self leg0 rest)
    rw [hl] at hcond
    unfold FeeEngine.compute
    rw [hl]
    dsimp only
    rw [if_pos hcond]
    refine ⟨_, rfl, ?_, ?_, ?_⟩
    · intro h
      simp only [if_pos h]
      refine ⟨sideWaived_map_waive _ _, by trivial, by trivial, ?_, ?_, ?_, ?_⟩
      · exact (sideWaived_total_zero _ _ (sideWaived_map_waive _ _)).1
      · exact (sideWaived_total_zero _ _ (sideWaived_map_waive _ _)).2
      · exact sideTotal_map_waive (·.trade_fee_usd) .sell .buy (by decide) _
      · intro hz hsw
        rcases sideTotal_ne_zero (·.trade_fee_usd) .sell _
          (by rw [sideTotal_map_waive (·.trade_fee_usd) .sell .buy (by decide) _]
              exact hz) with ⟨f, hf, hside, hnz⟩
        exact hnz (hsw f hf hside).2
    · intro h
      simp only [if_neg (not_le.mpr h)]
      refine ⟨sideWaived_map_waive _ _, by trivial, by trivial, ?_, ?_, ?_, ?_⟩
      · exact (sideWaived_total_zero _ _ (sideWaived_map_waive _ _)).1
      · exact (sideWaived_total_zero _ _ (sideWaived_map_waive _ _)).2
      · exact sideTotal_map_waive (·.trade_fee_usd) .buy .sell (by decide) _
      · intro hz hsw
        rcases sideTotal_ne_zero (·.trade_fee_usd) .buy _
          (by rw [sideTotal_map_waive (·.trade_fee_usd) .buy .sell (by decide) _]
              exact hz) with ⟨f, hf, hside, hnz⟩
        exact hnz (hsw f hf hside).2
    · dsimp only
      by_cases h : sideTotal (·.trade_fee_usd) .buy ((leg0 :: rest).map computeTradeFee) ≤
          sideTotal (·.trade_fee_usd) .sell ((leg0 :: rest).map computeTradeFee)
      · simp only [if_pos h]
        exact Or.inl (sideWaived_map_waive _ _)
      · simp only [if_neg h]
        exact Or.inr (sideWaived_map_waive _ _)

/-- A one-leg sell context whose only leg trades zero contracts. -/
def feeCtxZeroSell : FeeComputationContext :=
  { legs :=
      [{ instrument_name := "BTC-25DEC24-40000-C", side := .sell, settlement := .usdc,
         role := .taker, option_price := 100, index_price := 40000, contracts := 0,
         contract_size := 1, expiry := 2000000000, is_daily := false }],
    hold_to_expiry := false }

/-- The breakdown `FeeEngine::compute` produces on `feeCtxZeroSell`. -/
def feeBdZero : FeeBreakdown :=
  { legs :=
      [{ instrument_name := "BTC-25DEC24-40000-C", side := .sell, settlement := .usdc,
         execution_role := .taker, trade_fee_native := 0, trade_fee_usd := 0 }],
    combo_discount := 0, combo_discount_usd := 0, delivery_fee := 0,
    delivery_fee_usd := 0, total_native := 0, total_usd := 0 }

/-- C3 counterexample: on the accepted context `feeCtxZeroSell` (one sell leg,
zero contracts) the engine succeeds and BOTH sides end with only zero per-leg
trade fees, so no side has nonzero fees — refuting the claim that in every
returned breakdown exactly one side has nonzero per-leg trade fees. -/
theorem feeEngine_combo_discount_counterexample :
    ∃ b, FeeEngine.compute feeCtxZeroSell = .ok b ∧
      sideWaived b.legs .buy ∧ sideWaived b.legs .sell ∧ b.legs ≠ [] := by
  have heq : FeeEngine.compute feeCtxZeroSell = .ok feeBdZero := by
    norm_num [FeeEngine.compute, feeCtxZeroSell, computeTradeFee, sideTotal, waiveFee,
      feeBdZero, deliveryTotals]
  refine ⟨feeBdZero, heq, ?_, ?_, by simp [feeBdZero]⟩
  · intro f hf hside
    simp only [feeBdZero, List.mem_singleton] at hf
    subst hf
    exact ⟨rfl, rfl⟩
  · intro f hf hside
    simp only [feeBdZero, List.mem_singleton] at hf
    subst hf
    exact ⟨rfl, rfl⟩

/-- Witness for the amended combo-discount theorem at the concrete uniform
context. -/
theorem feeEngine_combo_discount_check :
    ∃ b, FeeEngine.compute feeCtxUniform = .ok b ∧
      ((sideTotal (·.trade_fee_usd) .buy (feeCtxUniform.legs.map computeTradeFee) ≤
          sideTotal (·.trade_fee_usd) .sell (feeCtxUniform.legs.map computeTradeFee) →
        sideWaived b.legs .buy ∧
        b.combo_discount =
          sideTotal (·.trade_fee_native) .buy (feeCtxUniform.legs.map computeTradeFee) ∧
        b.combo_discount_usd =
          sideTotal (·.trade_fee_usd) .buy (feeCtxUniform.legs.map computeTradeFee) ∧
        sideTotal (·.trade_fee_native) .buy b.legs = 0 ∧
        sideTotal (·.trade_fee_usd) .buy b.legs = 0 ∧
        sideTotal (·.trade_fee_usd) .sell b.legs =
          sideTotal (·.trade_fee_usd) .sell (feeCtxUniform.legs.map computeTradeFee) ∧
        (sideTotal (·.trade_fee_usd) .sell (feeCtxUniform.legs.map computeTradeFee) ≠ 0 →
          ¬ sideWaived b.legs .sell)) ∧
       (sideTotal (·.trade_fee_usd) .sell (feeCtxUniform.legs.map computeTradeFee) <
          sideTotal (·.trade_fee_usd) .buy (feeCtxUniform.legs.map computeTradeFee) →
        sideWaived b.legs .sell ∧
        b.combo_discount =
          sideTotal (·.trade_fee_native) .sell (feeCtxUniform.legs.map computeTradeFee) ∧
        b.combo_discount_usd =
          sideTotal (·.trade_fee_usd) .sell (feeCtxUniform.legs.map computeTradeFee) ∧
        sideTotal (·.trade_fee_native) .sell b.legs = 0 ∧
        sideTotal (·.trade_fee_usd) .sell b.legs = 0 ∧
        sideTotal (·.trade_fee_usd) .buy b.legs =
          sideTotal (·.trade_fee_usd) .buy (feeCtxUniform.legs.map computeTradeFee) ∧
        (sideTotal (·.trade_fee_usd) .buy (feeCtxUniform.legs.map computeTradeFee) ≠ 0 →
          ¬ sideWaived b.legs .buy)) ∧
       (sideWaived b.legs .buy ∨ sideWaived b.legs .sell)) :=
  feeEngine_combo_discount feeCtxUniform (by decide) (by decide)

/-- Trade fees are non-negative on non-negative inputs. -/
theorem computeTradeFee_nonneg (input : LegFeeInput)
    (hp : 0 ≤ input.option_price) (hi : 0 ≤ input.index_price)
    (hs : 0 ≤ input.contract_size) :
    0 ≤ (computeTradeFee input).trade_fee_native ∧
    0 ≤ (computeTradeFee input).trade_fee_usd := by
  unfold computeTradeFee
  by_cases hc : |input.contracts| = 0
  · simp only [if_pos hc]
    exact ⟨le_refl 0, le_refl 0⟩
  · simp only [if_neg hc]
    have habs : (0 : ℚ) ≤ |input.contracts| := abs_nonneg _
    cases hset : input.settlement <;> dsimp only
    · have hbase : (0 : ℚ) ≤ input.index_price * (0.0003 : ℚ) :=
        mul_nonneg hi (by norm_num)
      have hcap : (0 : ℚ) ≤ input.option_price * (0.125 : ℚ) :=
        mul_nonneg hp (by norm_num)
      have hper : (0 : ℚ) ≤ (if input.index_price * (0.0003 : ℚ) <
          input.option_price * (0.125 : ℚ) then input.index_price * (0.0003 : ℚ)
          else input.option_price * (0.125 : ℚ)) := by
        split <;> assumption
      constructor <;>
        exact mul_nonneg (mul_nonneg hper habs) hs
    · have hcap : (0 : ℚ) ≤ input.option_price * (0.125 : ℚ) :=
        mul_nonneg hp (by norm_num)
      have hper : (0 : ℚ) ≤ (if (0.0003 : ℚ) < input.option_price * (0.125 : ℚ)
          then (0.0003 : ℚ) else input.option_price * (0.125 : ℚ)) := by
        split
        · norm_num
        · exact hcap
      refine ⟨mul_nonneg (mul_nonneg hper habs) hs, ?_⟩
      exact mul_nonneg (mul_nonneg (mul_nonneg hper habs) hs) hi

/-- A leg with zero contracts gets zero trade fees. -/
theorem computeTradeFee_zero_contracts (input : LegFeeInput)
    (h : input.contracts = 0) :
    (computeTradeFee input).trade_fee_native = 0 ∧
    (computeTradeFee input).trade_fee_usd = 0 := by
  unfold computeTradeFee
  rw [if_pos (by rw [h]; exact abs_zero)]
  exact ⟨rfl, rfl⟩

/-- Waiving preserves fee non-negativity and zero fees. -/
theorem waiveFee_nonneg (waived : ComboSide) (fee : LegFee)
    (h : 0 ≤ fee.trade_fee_native ∧ 0 ≤ fee.trade_fee_usd) :
    0 ≤ (waiveFee waived fee).trade_fee_native ∧
    0 ≤ (waiveFee waived fee).trade_fee_usd := by
  unfold waiveFee
  split
  · exact ⟨le_refl 0, le_refl 0⟩
  · exact h

/-- Waiving maps zero fees to zero fees. -/
theorem waiveFee_zero (waived : ComboSide) (fee : LegFee)
    (h : fee.trade_fee_native = 0 ∧ fee.trade_fee_usd = 0) :
    (waiveFee waived fee).trade_fee_native = 0 ∧
    (waiveFee waived fee).trade_fee_usd = 0 := by
  unfold waiveFee
  split
  · exact ⟨rfl, rfl⟩
  · exact h

/-- A side total of non-negative fees is non-negative. -/
theorem sideTotal_nonneg (proj : LegFee → ℚ) (side : ComboSide) (l : List LegFee)
    (h : ∀ f ∈ l, 0 ≤ proj f) : 0 ≤ sideTotal proj side l := by
  induction l with
  | nil => simp [sideTotal]
  | cons f rest ih =>
    rw [sideTotal_cons]
    have hr := ih (fun f hf => h f (List.mem_cons_of_mem _ hf))
    have hf0 := h f (List.mem_cons_self f rest)
    split
    · exact add_nonneg hf0 hr
    · exact add_nonneg (le_refl 0) hr

/-- A plain fold of fee additions from a non-negative start stays
non-negative. -/
theorem foldl_add_nonneg (proj : LegFee → ℚ) :
    ∀ (l : List LegFee) (acc : ℚ), 0 ≤ acc → (∀ f ∈ l, 0 ≤ proj f) →
      0 ≤ l.foldl (fun a fee => a + proj fee) acc := by
  intro l
  induction l with
  | nil => intro acc hacc _; exact hacc
  | cons f rest ih =>
    intro acc hacc h
    exact ih (acc + proj f)
      (add_nonneg hacc (h f (List.mem_cons_self f rest)))
      (fun g hg => h g (List.mem_cons_of_mem _ hg))

/-- Both components of the per-leg delivery term are non-negative on
non-negative inputs. -/
theorem deliveryFeePair_nonneg (leg : LegFeeInput)
    (hp : 0 ≤ leg.option_price) (hi : 0 ≤ leg.index_price)
    (hs : 0 ≤ leg.contract_size) :
    0 ≤ (deliveryFeePair leg).1 ∧ 0 ≤ (deliveryFeePair leg).2 := by
  unfold deliveryFeePair
  by_cases hd : leg.is_daily
  · rw [if_pos hd]
    exact ⟨le_refl 0, le_refl 0⟩
  · rw [if_neg hd]
    dsimp only
    have hcontr : (0 : ℚ) ≤ |leg.contracts| * leg.contract_size :=
      mul_nonneg (abs_nonneg _) hs
    have hnot : (0 : ℚ) ≤ leg.index_price * (|leg.contracts| * leg.contract_size) :=
      mul_nonneg hi hcontr
    cases hset : leg.settlement with
    | usdc =>
      dsimp only
      have hov : (0 : ℚ) ≤ leg.option_price * (|leg.contracts| * leg.contract_size) * 1 :=
        mul_nonneg (mul_nonneg hp hcontr) (by norm_num)
      have hud := le_min (mul_nonneg hnot (by norm_num : (0 : ℚ) ≤ (0.00015 : ℚ)))
        (mul_nonneg hov (by norm_num : (0 : ℚ) ≤ (0.125 : ℚ)))
      exact ⟨hud, hud⟩
    | coin =>
      dsimp only
      have hov : (0 : ℚ) ≤ leg.option_price * (|leg.contracts| * leg.contract_size) *
          leg.index_price :=
        mul_nonneg (mul_nonneg hp hcontr) hi
      have hud := le_min (mul_nonneg hnot (by norm_num : (0 : ℚ) ≤ (0.00015 : ℚ)))
        (mul_nonneg hov (by norm_num : (0 : ℚ) ≤ (0.125 : ℚ)))
      refine ⟨?_, hud⟩
      split
      · exact le_refl 0
      · exact div_nonneg hud hi

/-- Both delivery-fee accumulators are non-negative on non-negative legs. -/
theorem deliveryTotals_nonneg (legs : List LegFeeInput)
    (h : ∀ l ∈ legs, 0 ≤ l.option_price ∧ 0 ≤ l.index_price ∧
      0 ≤ l.contracts ∧ 0 ≤ l.contract_size) :
    0 ≤ (deliveryTotals legs).1 ∧ 0 ≤ (deliveryTotals legs).2 := by
  have main : ∀ (l : List LegFeeInput), (∀ g ∈ l, 0 ≤ g.option_price ∧
      0 ≤ g.index_price ∧ 0 ≤ g.contracts ∧ 0 ≤ g.contract_size) →
      ∀ (acc : ℚ × ℚ), 0 ≤ acc.1 → 0 ≤ acc.2 →
      0 ≤ (l.foldl (fun acc leg =>
        (acc.1 + (deliveryFeePair leg).1, acc.2 + (deliveryFeePair leg).2)) acc).1 ∧
      0 ≤ (l.foldl (fun acc leg =>
        (acc.1 + (deliveryFeePair leg).1, acc.2 + (deliveryFeePair leg).2)) acc).2 := by
    intro l
    induction l with
    | nil => intro _ acc h1 h2; exact ⟨h1, h2⟩
    | cons g rest ih =>
      intro hl acc h1 h2
      rcases hl g (List.mem_cons_self g rest) with ⟨hp, hi, _, hs⟩
      rcases deliveryFeePair_nonneg g hp hi hs with ⟨hd1, hd2⟩
      exact ih (fun x hx => hl x (List.mem_cons_of_mem _ hx)) _
        (add_nonneg h1 hd1) (add_nonneg h2 hd2)
  exact main legs h (0, 0) (le_refl 0) (le_refl 0)

/-- C10: on every accepted fee context whose legs carry non-negative prices,
index, contracts and contract size, every field of the returned breakdown is
non-negative, the breakdown has one leg fee per input leg, and a leg with
zero contracts yields zero fees rather than an error. -/
theorem feeEngine_nonneg (ctx : FeeComputationContext)
    (hne : ctx.legs ≠ [])
    (huni : ∀ l1 ∈ ctx.legs, ∀ l2 ∈ ctx.legs, l1.settlement = l2.settlement)
    (hpos : ∀ l ∈ ctx.legs, 0 ≤ l.option_price ∧ 0 ≤ l.index_price ∧
      0 ≤ l.contracts ∧ 0 ≤ l.contract_size) :
    ∃ b, FeeEngine.compute ctx = .ok b ∧
      (∀ f ∈ b.legs, 0 ≤ f.trade_fee_native ∧ 0 ≤ f.trade_fee_usd) ∧
      0 ≤ b.combo_discount ∧ 0 ≤ b.combo_discount_usd ∧
      0 ≤ b.delivery_fee ∧ 0 ≤ b.delivery_fee_usd ∧
      0 ≤ b.total_native ∧ 0 ≤ b.total_usd ∧
      b.legs.length = ctx.legs.length ∧
      (∀ i (h1 : i < ctx.legs.length) (h2 : i < b.legs.length),
        ctx.legs[i].contracts = 0 →
        b.legs[i].trade_fee_native = 0 ∧ b.legs[i].trade_fee_usd = 0) := by
  cases hl : ctx.legs with
  | nil => exact absurd hl hne
  | cons leg0 rest =>
    have hcond : ctx.legs.all (fun leg => leg.settlement = leg0.settlement) = true := by
      rw [List.all_eq_true]
      intro leg hleg
      simp only [decide_eq_true_eq]
      exact huni leg hleg leg0 (by rw [hl]; exact List.mem_cons_self leg0 rest)
    rw [hl] at hcond hpos
    have hfees : ∀ f ∈ (leg0 :: rest).map computeTradeFee,
        0 ≤ f.trade_fee_native ∧ 0 ≤ f.trade_fee_usd := by
      intro f hf
      rcases List.mem_map.mp hf with ⟨g, hg, rfl⟩
      rcases hpos g hg with ⟨hp, hi, _, hs⟩
      exact computeTradeFee_nonneg g hp hi hs
    unfold FeeEngine.compute
    rw [hl]
    dsimp only
    rw [if_pos hcond]
    refine ⟨_, rfl, ?_, ?_, ?_, ?_, ?_, ?_, ?_, ?_, ?_⟩
    · intro f hf
      rcases List.mem_map.mp hf with ⟨g, hg, rfl⟩
      exact waiveFee_nonneg _ g (hfees g hg)
    · dsimp only
      split
      · exact sideTotal_nonneg _ _ _ (fun f hf => (hfees f hf).1)
      · exact sideTotal_nonneg _ _ _ (fun f hf => (hfees f hf).1)
    · dsimp only
      split
      · exact sideTotal_nonneg _ _ _ (fun f hf => (hfees f hf).2)
      · exact sideTotal_nonneg _ _ _ (fun f hf => (hfees f hf).2)
    · dsimp only
      split
      · exact (deliveryTotals_nonneg _ hpos).1
      · exact le_refl 0
    · dsimp only
      split
      · exact (deliveryTotals_nonneg _ hpos).2
      · exact le_refl 0
    · refine add_nonneg (foldl_add_nonneg _ _ 0 (le_refl 0) ?_) ?_
      · intro f hf
        rcases List.mem_map.mp hf with ⟨g, hg, rfl⟩
        exact (waiveFee_nonneg _ g (hfees g hg)).1
      · dsimp only
        split
        · exact (deliveryTotals_nonneg _ hpos).1
        · exact le_refl 0
    · refine add_nonneg (foldl_add_nonneg _ _ 0 (le_refl 0) ?_) ?_
      · intro f hf
        rcases List.mem_map.mp hf with ⟨g, hg, rfl⟩
        exact (waiveFee_nonneg _ g (hfees g hg)).2
      · dsimp only
        split
        · exact (deliveryTotals_nonneg _ hpos).2
        · exact le_refl 0
    · simp [List.length_map]
    · intro i h1 h2 hzero
      simp only [List.getElem_map] at h2 ⊢
      exact waiveFee_zero _ _ (computeTradeFee_zero_contracts _ hzero)

/-- A concrete uniform context containing a zero-contracts leg, for the
non-negativity witness. -/
def feeCtxNonneg : FeeComputationContext :=
  { legs :=
      [{ instrument_name := "BTC-25DEC24-40000-C", side := .buy, settlement := .usdc,
         role := .taker, option_price := 100, index_price := 40000, contracts := 2,
         contract_size := 1, expiry := 2000000000, is_daily := false },
       { instrument_name := "BTC-25DEC24-45000-C", side := .sell, settlement := .usdc,
         role := .taker, option_price := 50, index_price := 40000, contracts := 0,
         contract_size := 1, expiry := 2000000000, is_daily := false }],
    hold_to_expiry := true }

/-- Witness for the fee non-negativity theorem at a concrete context. -/
theorem feeEngine_nonneg_check :
    ∃ b, FeeEngine.compute feeCtxNonneg = .ok b ∧
      (∀ f ∈ b.legs, 0 ≤ f.trade_fee_native ∧ 0 ≤ f.trade_fee_usd) ∧
      0 ≤ b.combo_discount ∧ 0 ≤ b.combo_discount_usd ∧
      0 ≤ b.delivery_fee ∧ 0 ≤ b.delivery_fee_usd ∧
      0 ≤ b.total_native ∧ 0 ≤ b.total_usd ∧
      b.legs.length = feeCtxNonneg.legs.length ∧
      (∀ i (h1 : i < feeCtxNonneg.legs.length) (h2 : i < b.legs.length),
        feeCtxNonneg.legs[i].contracts = 0 →
        b.legs[i].trade_fee_native = 0 ∧ b.legs[i].trade_fee_usd = 0) :=
  feeEngine_nonneg feeCtxNonneg (by decide) (by decide)
    (by
      intro l hl
      simp only [feeCtxNonneg, List.mem_cons, List.not_mem_nil, or_false] at hl
      rcases hl with rfl | rfl <;> refine ⟨by norm_num, by norm_num, by norm_num, by norm_num⟩)

/-- Everything a successfully emitted vertical opportunity satisfies at its
emission site. -/
theorem processVerticalWindow_ok {cfg : AppConfig} {now : Int} {currency : Currency}
    {settlement : SettlementCurrency} {expiry : Int} {low high : InstrumentSnapshot}
    {o : StrategyOpportunity}
    (h : processVerticalWindow cfg now currency settlement expiry low high =
      .ok (some o)) :
    o.strategy = .vertical ∧ o.settlement = settlement ∧
    0 < o.size_contracts ∧ cfg.min_edge_usd ≤ o.net_edge_usd ∧
    cfg.min_edge_ratio_q ≤ o.net_edge_usd / max o.fee_breakdown.total_usd (0.01 : ℚ) ∧
    0 ≤ o.total_cost ∧
    o.strikes = [low.instrument.strike, high.instrument.strike] ∧
    usdValue settlement o.total_cost o.reference_index ≤
      (high.instrument.strike - low.instrument.strike) * o.size_contracts *
        low.instrument.contract_size + 1 / 1000000 ∧
    o.net_edge_usd =
      (high.instrument.strike - low.instrument.strike) * o.size_contracts *
        low.instrument.contract_size -
      usdValue settlement o.total_cost o.reference_index - o.fee_breakdown.total_usd ∧
    ∃ bi bq si sq, verticalSelect cfg low high = some (bi, bq, si, sq) ∧
      o.reference_index = bi.quote.index_price ∧
      o.size_contracts = min (min bq.amount sq.amount) (maxContractsFromTicket cfg bi) := by
  unfold processVerticalWindow at h
  split at h
  · simp at h
  split at h
  · simp at h
  rename_i bi bq si sq hsel
  dsimp only at h
  split at h
  · simp at h
  rename_i hsize
  split at h
  · simp at h
  rename_i hdebit
  split at h
  · simp at h
  rename_i hdiff
  split at h
  · simp at h
  rename_i hcap
  split at h
  · simp at h
  rename_i fee hfee
  split at h
  · simp at h
  rename_i hnet
  split at h
  · simp at h
  rename_i hminedge
  split at h
  · simp at h
  rename_i hquot
  simp only [Except.ok.injEq, Option.some.injEq] at h
  subst h
  refine ⟨rfl, rfl, not_le.mp hsize, not_lt.mp hminedge, not_lt.mp hquot,
    not_lt.mp hdebit, rfl, not_lt.mp hcap, rfl, bi, bq, si, sq, hsel, rfl, rfl⟩

/-- Everything a successfully emitted butterfly opportunity satisfies. -/
theorem processButterflyWindow_ok {cfg : AppConfig} {now : Int} {currency : Currency}
    {settlement : SettlementCurrency} {expiry : Int} {low mid high : InstrumentSnapshot}
    {o : StrategyOpportunity}
    (h : processButterflyWindow cfg now currency settlement expiry low mid high =
      .ok (some o)) :
    o.strategy = .butterfly ∧ 0 < o.size_contracts ∧
    cfg.min_edge_usd ≤ o.net_edge_usd ∧
    cfg.min_edge_ratio_q ≤ o.net_edge_usd / max o.fee_breakdown.total_usd (0.01 : ℚ) := by
  unfold processButterflyWindow at h
  split at h
  · simp at h
  rename_i ask_low bid_mid ask_high hsel
  dsimp only at h
  split at h
  · simp at h
  rename_i hsize
  split at h
  · simp at h
  rename_i fee hfee
  split at h
  · simp at h
  rename_i hnet
  split at h
  · simp at h
  rename_i hminedge
  split at h
  · simp at h
  rename_i hquot
  simp only [Except.ok.injEq, Option.some.injEq] at h
  subst h
  exact ⟨rfl, not_le.mp hsize, not_lt.mp hminedge, not_lt.mp hquot⟩

/-- Everything a successfully emitted calendar opportunity satisfies. -/
theorem processCalendarPair_ok {cfg : AppConfig} {now : Int} {currency : Currency}
    {settlement : SettlementCurrency} {near far : InstrumentSnapshot}
    {o : StrategyOpportunity}
    (h : processCalendarPair cfg now currency settlement near far = .ok (some o)) :
    o.strategy = .calendar ∧ 0 < o.size_contracts ∧
    cfg.min_edge_usd ≤ o.net_edge_usd ∧
    cfg.min_edge_ratio_q ≤ o.net_edge_usd / max o.fee_breakdown.total_usd (0.01 : ℚ) := by
  unfold processCalendarPair at h
  split at h
  · simp at h
  split at h
  · simp at h
  rename_i near_bid far_ask hsel
  dsimp only at h
  split at h
  · simp at h
  rename_i hsize
  split at h
  · simp at h
  rename_i hcredit
  split at h
  · simp at h
  rename_i fee hfee
  split at h
  · simp at h
  rename_i hnet
  split at h
  · simp at h
  rename_i hminedge
  split at h
  · simp at h
  rename_i hquot
  simp only [Except.ok.injEq, Option.some.injEq] at h
  subst h
  exact ⟨rfl, not_le.mp hsize, not_lt.mp hminedge, not_lt.mp hquot⟩

/-- Everything a successfully emitted box opportunity satisfies.  Note the
absence of any `min_edge_ratio` fact: the box detector never checks it. -/
theorem processBoxPair_ok {cfg : AppConfig} {now : Int} {currency : Currency}
    {settlement : SettlementCurrency} {puts : List InstrumentSnapshot}
    {c_low c_high : InstrumentSnapshot} {o : StrategyOpportunity}
    (h : processBoxPair cfg now currency settlement puts c_low c_high = .ok (some o)) :
    o.strategy = .box ∧ 0 < o.size_contracts ∧ cfg.min_edge_usd ≤ o.net_edge_usd := by
  unfold processBoxPair at h
  split at h
  · simp at h
  rename_i p_low p_high hputs
  split at h
  · simp at h
  rename_i a1 a2 a3 a4 hsel
  dsimp only at h
  split at h
  · simp at h
  rename_i hsize
  split at h
  · simp at h
  rename_i fee hfee
  split at h
  · simp at h
  rename_i hnet
  split at h
  · simp at h
  rename_i hminedge
  simp only [Except.ok.injEq, Option.some.injEq] at h
  subst h
  exact ⟨rfl, not_le.mp hsize, not_lt.mp hminedge⟩

/-- Everything a successfully emitted jelly-roll opportunity satisfies. -/
theorem processJellyPair_ok {cfg : AppConfig} {now : Int} {currency : Currency}
    {strike : ℚ} {settlement : SettlementCurrency}
    {near far : Int × InstrumentSnapshot × InstrumentSnapshot}
    {o : StrategyOpportunity}
    (h : processJellyPair cfg now currency strike settlement near far = .ok (some o)) :
    o.strategy = .jellyRoll ∧ 0 < o.size_contracts ∧
    cfg.min_edge_usd ≤ o.net_edge_usd ∧
    cfg.min_edge_ratio_q ≤ o.net_edge_usd / max o.fee_breakdown.total_usd (0.01 : ℚ) := by
  unfold processJellyPair at h
  dsimp only at h
  split at h
  · simp at h
  rename_i a1 a2 a3 a4 hsel
  split at h
  · simp at h
  rename_i hsize
  split at h
  · simp at h
  rename_i hdebit
  split at h
  · simp at h
  rename_i fee hfee
  split at h
  · simp at h
  rename_i hnet
  split at h
  · simp at h
  rename_i hminedge
  split at h
  · simp at h
  rename_i hquot
  simp only [Except.ok.injEq, Option.some.injEq] at h
  subst h
  exact ⟨rfl, not_le.mp hsize, not_lt.mp hminedge, not_lt.mp hquot⟩

/-- Every element collected over adjacent pairs comes from a successful
emission. -/
theorem collectAdj_ok_mem {f : α → α → Except ε (Option β)} :
    ∀ {l : List α} {out : List β}, collectAdj f l = .ok out →
      ∀ {x : β}, x ∈ out → ∃ a b, f a b = .ok (some x) := by
  intro l
  induction l with
  | nil =>
    intro out h x hx
    simp only [collectAdj, Except.ok.injEq] at h
    subst h
    cases hx
  | cons a rest ih =>
    cases rest with
    | nil =>
      intro out h x hx
      simp only [collectAdj, Except.ok.injEq] at h
      subst h
      cases hx
    | cons b rest2 =>
      intro out h x hx
      unfold collectAdj at h
      split at h
      · cases h
      rename_i r hr
      split at h
      · cases h
      rename_i tail htail
      simp only [Except.ok.injEq] at h
      subst h
      cases r with
      | some y =>
        rcases List.mem_cons.mp hx with rfl | hx2
        · exact ⟨a, b, hr⟩
        · exact ih htail hx2
      | none => exact ih htail hx

/-- Every element collected over adjacent triples comes from a successful
emission. -/
theorem collectAdj3_ok_mem {f : α → α → α → Except ε (Option β)} :
    ∀ {l : List α} {out : List β}, collectAdj3 f l = .ok out →
      ∀ {x : β}, x ∈ out → ∃ a b c, f a b c = .ok (some x) := by
  intro l
  induction l with
  | nil =>
    intro out h x hx
    simp only [collectAdj3, Except.ok.injEq] at h
    subst h
    cases hx
  | cons a rest ih =>
    cases rest with
    | nil =>
      intro out h x hx
      simp only [collectAdj3, Except.ok.injEq] at h
      subst h
      cases hx
    | cons b rest2 =>
      cases rest2 with
      | nil =>
        intro out h x hx
        simp only [collectAdj3, Except.ok.injEq] at h
        subst h
        cases hx
      | cons c rest3 =>
        intro out h x hx
        unfold collectAdj3 at h
        split at h
        · cases h
        rename_i r hr
        split at h
        · cases h
        rename_i tail htail
        simp only [Except.ok.injEq] at h
        subst h
        cases r with
        | some y =>
          rcases List.mem_cons.mp hx with rfl | hx2
          · exact ⟨a, b, c, hr⟩
          · exact ih htail hx2
        | none => exact ih htail hx

/-- Every element of a successful grouped collection comes from some group's
successful result. -/
theorem collectConcat_ok_mem {f : γ → Except ε (List β)} :
    ∀ {l : List γ} {out : List β}, collectConcat f l = .ok out →
      ∀ {x : β}, x ∈ out → ∃ g ∈ l, ∃ r, f g = .ok r ∧ x ∈ r := by
  intro l
  induction l with
  | nil =>
    intro out h x hx
    simp only [collectConcat, Except.ok.injEq] at h
    subst h
    cases hx
  | cons g rest ih =>
    intro out h x hx
    unfold collectConcat at h
    split at h
    · cases h
    rename_i r hr
    split at h
    · cases h
    rename_i tail htail
    simp only [Except.ok.injEq] at h
    subst h
    rcases List.mem_append.mp hx with hx1 | hx2
    · exact ⟨g, List.mem_cons_self g rest, r, hr, hx1⟩
    · rcases ih htail hx2 with ⟨g2, hg2, r2, hr2, hxr2⟩
      exact ⟨g2, List.mem_cons_of_mem _ hg2, r2, hr2, hxr2⟩

/-- Every vertical in a detector result comes from one window emission. -/
theorem detectVerticals_mem {cfg : AppConfig} {now : Int}
    {instruments : List InstrumentSnapshot} {currency : Currency}
    {settlement : SettlementCurrency} {expiry : Int}
    {out : List StrategyOpportunity} {o : StrategyOpportunity}
    (h : detectVerticals cfg now instruments currency settlement expiry = .ok out)
    (ho : o ∈ out) :
    ∃ low high,
      processVerticalWindow cfg now currency settlement expiry low high =
        .ok (some o) := by
  unfold detectVerticals at h
  exact collectAdj_ok_mem h ho

/-- Every butterfly in a detector result comes from one window emission. -/
theorem detectButterflies_mem {cfg : AppConfig} {now : Int}
    {instruments : List InstrumentSnapshot} {currency : Currency}
    {settlement : SettlementCurrency} {expiry : Int}
    {out : List StrategyOpportunity} {o : StrategyOpportunity}
    (h : detectButterflies cfg now instruments currency settlement expiry = .ok out)
    (ho : o ∈ out) :
    ∃ low mid high,
      processButterflyWindow cfg now currency settlement expiry low mid high =
        .ok (some o) := by
  unfold detectButterflies at h
  exact collectAdj3_ok_mem h ho

/-- Every calendar in a detector result comes from one pair emission. -/
theorem detectCalendars_mem {cfg : AppConfig} {now : Int}
    {snapshot : List InstrumentSnapshot}
    {out : List StrategyOpportunity} {o : StrategyOpportunity}
    (h : detectCalendars cfg now snapshot = .ok out) (ho : o ∈ out) :
    ∃ currency settlement near far,
      processCalendarPair cfg now currency settlement near far = .ok (some o) := by
  unfold detectCalendars at h
  rcases collectConcat_ok_mem h ho with ⟨g, _, r, hr, hxr⟩
  unfold calendarGroup at hr
  split at hr
  · simp only [Except.ok.injEq] at hr
    subst hr
    cases hxr
  split at hr
  · rcases collectAdj_ok_mem hr hxr with ⟨near, far, hp⟩
    exact ⟨g.1.currency, g.1.settlement, near, far, hp⟩
  · simp only [Except.ok.injEq] at hr
    subst hr
    cases hxr

/-- Every box in a detector result comes from one pair emission. -/
theorem detectBoxes_mem {cfg : AppConfig} {now : Int}
    {snapshot : List InstrumentSnapshot}
    {out : List StrategyOpportunity} {o : StrategyOpportunity}
    (h : detectBoxes cfg now snapshot = .ok out) (ho : o ∈ out) :
    ∃ currency settlement puts c_low c_high,
      processBoxPair cfg now currency settlement puts c_low c_high = .ok (some o) := by
  unfold detectBoxes at h
  rcases collectConcat_ok_mem h ho with ⟨g, _, r, hr, hxr⟩
  unfold boxGroup at hr
  rcases collectAdj_ok_mem hr hxr with ⟨c_low, c_high, hp⟩
  exact ⟨g.1.currency, g.1.settlement, _, c_low, c_high, hp⟩

/-- Every jelly roll in a detector result comes from one pair emission. -/
theorem detectJellyRolls_mem {cfg : AppConfig} {now : Int}
    {snapshot : List InstrumentSnapshot}
    {out : List StrategyOpportunity} {o : StrategyOpportunity}
    (h : detectJellyRolls cfg now snapshot = .ok out) (ho : o ∈ out) :
    ∃ currency strike settlement near far,
      processJellyPair cfg now currency strike settlement near far = .ok (some o) := by
  unfold detectJellyRolls at h
  rcases collectConcat_ok_mem h ho with ⟨g, _, r, hr, hxr⟩
  unfold jellyGroup at hr
  dsimp only at hr
  split at hr
  · simp only [Except.ok.injEq] at hr
    subst hr
    cases hxr
  · rcases collectAdj_ok_mem hr hxr with ⟨near, far, hp⟩
    exact ⟨g.1.currency, g.1.strike, g.1.settlement, near, far, hp⟩

/-- Every opportunity in the per-group phase comes from a vertical or
butterfly emission. -/
theorem scanGroups_mem {cfg : AppConfig} {now : Int} :
    ∀ {groups : List (GroupKey × List InstrumentSnapshot)} {o : StrategyOpportunity},
      o ∈ scanGroups cfg now groups →
      (∃ currency settlement expiry low high,
        processVerticalWindow cfg now currency settlement expiry low high =
          .ok (some o)) ∨
      (∃ currency settlement expiry low mid high,
        processButterflyWindow cfg now currency settlement expiry low mid high =
          .ok (some o)) := by
  intro groups
  induction groups with
  | nil => intro o ho; cases ho
  | cons g rest ih =>
    intro o ho
    rcases g with ⟨key, insts⟩
    unfold scanGroups at ho
    dsimp only at ho
    rcases List.mem_append.mp ho with hv | hrest
    rcases List.mem_append.mp hv with hv | hf
    · split at hv
      · split at hv
        · rename_i v hveq
          rcases detectVerticals_mem hveq hv with ⟨low, high, hp⟩
          exact Or.inl ⟨key.currency, key.settlement, key.expiry, low, high, hp⟩
        · cases hv
      · cases hv
    · split at hf
      · split at hf
        · rename_i v hfeq
          rcases detectButterflies_mem hfeq hf with ⟨low, mid, high, hp⟩
          exact Or.inr ⟨key.currency, key.settlement, key.expiry, low, mid, high, hp⟩
        · cases hf
      · cases hf
    · exact ih hrest

/-- Every collected opportunity comes from one of the five detectors'
per-candidate emissions. -/
theorem collectOpportunities_mem {cfg : AppConfig} {now : Int}
    {snapshot : List InstrumentSnapshot} {o : StrategyOpportunity}
    (ho : o ∈ collectOpportunities cfg now snapshot) :
    (∃ currency settlement expiry low high,
      processVerticalWindow cfg now currency settlement expiry low high =
        .ok (some o)) ∨
    (∃ currency settlement expiry low mid high,
      processButterflyWindow cfg now currency settlement expiry low mid high =
        .ok (some o)) ∨
    (∃ currency settlement near far,
      processCalendarPair cfg now currency settlement near far = .ok (some o)) ∨
    (∃ currency settlement puts c_low c_high,
      processBoxPair cfg now currency settlement puts c_low c_high = .ok (some o)) ∨
    (∃ currency strike settlement near far,
      processJellyPair cfg now currency strike settlement near far = .ok (some o)) := by
  unfold collectOpportunities at ho
  dsimp only at ho
  rcases List.mem_append.mp ho with h3 | hj
  rcases List.mem_append.mp h3 with h2 | hb
  rcases List.mem_append.mp h2 with h1 | hc
  · rcases scanGroups_mem h1 with hv | hf
    · exact Or.inl hv
    · exact Or.inr (Or.inl hf)
  · split at hc
    · split at hc
      · rename_i v hceq
        exact Or.inr (Or.inr (Or.inl (detectCalendars_mem hceq hc)))
      · cases hc
    · cases hc
  · split at hb
    · split at hb
      · rename_i v hbeq
        exact Or.inr (Or.inr (Or.inr (Or.inl (detectBoxes_mem hbeq hb))))
      · cases hb
    · cases hb
  · split at hj
    · split at hj
      · rename_i v hjeq
        exact Or.inr (Or.inr (Or.inr (Or.inr (detectJellyRolls_mem hjeq hj))))
      · cases hj
    · cases hj

/-- C1: every opportunity returned by `DetectorSuite::scan` has positive
`size_contracts` and `net_edge_usd ≥ min_edge_usd`; the returned vector is
sorted non-increasing by `net_edge_usd`; and the sort is stable: for every
edge value, the sub-sequence of opportunities with that value equals their
pre-sort insertion order. -/
theorem scan_invariants (cfg : AppConfig) (now : Int)
    (snapshot : List InstrumentSnapshot) :
    (∀ o ∈ DetectorSuite.scan cfg now snapshot,
      0 < o.size_contracts ∧ cfg.min_edge_usd ≤ o.net_edge_usd) ∧
    List.Sorted (fun a b : StrategyOpportunity => b.net_edge_usd ≤ a.net_edge_usd)
      (DetectorSuite.scan cfg now snapshot) ∧
    (∀ v : ℚ,
      (DetectorSuite.scan cfg now snapshot).filter
        (fun o => decide (o.net_edge_usd = v)) =
      (collectOpportunities cfg now snapshot).filter
        (fun o => decide (o.net_edge_usd = v))) := by
  haveI htot : IsTotal StrategyOpportunity
      (fun a b => b.net_edge_usd ≤ a.net_edge_usd) :=
    ⟨fun a b => le_total b.net_edge_usd a.net_edge_usd⟩
  haveI htr : IsTrans StrategyOpportunity
      (fun a b => b.net_edge_usd ≤ a.net_edge_usd) :=
    ⟨fun _ _ _ hab hbc => le_trans hbc hab⟩
  refine ⟨?_, ?_, ?_⟩
  · intro o ho
    have hco : o ∈ collectOpportunities cfg now snapshot := by
      rw [DetectorSuite.scan, List.mem_insertionSort] at ho
      exact ho
    rcases collectOpportunities_mem hco with hv | hf | hc | hb | hj
    · rcases hv with ⟨c, s, e, low, high, hp⟩
      rcases processVerticalWindow_ok hp with ⟨-, -, h1, h2, -⟩
      exact ⟨h1, h2⟩
    · rcases hf with ⟨c, s, e, low, mid, high, hp⟩
      rcases processButterflyWindow_ok hp with ⟨-, h1, h2, -⟩
      exact ⟨h1, h2⟩
    · rcases hc with ⟨c, s, near, far, hp⟩
      rcases processCalendarPair_ok hp with ⟨-, h1, h2, -⟩
      exact ⟨h1, h2⟩
    · rcases hb with ⟨c, s, puts, cl, ch, hp⟩
      rcases processBoxPair_ok hp with ⟨-, h1, h2⟩
      exact ⟨h1, h2⟩
    · rcases hj with ⟨c, k, s, near, far, hp⟩
      rcases processJellyPair_ok hp with ⟨-, h1, h2, -⟩
      exact ⟨h1, h2⟩
  · exact List.sorted_insertionSort _ _
  · intro v
    set p : StrategyOpportunity → Bool := fun o => decide (o.net_edge_usd = v) with hp
    set l := collectOpportunities cfg now snapshot with hlDef
    have hAsub : List.Sublist (l.filter p) l := List.filter_sublist l
    have hAp : ∀ a ∈ l.filter p, p a := fun a ha => List.of_mem_filter ha
    have hApair : (l.filter p).Pairwise
        (fun a b : StrategyOpportunity => b.net_edge_usd ≤ a.net_edge_usd) := by
      apply List.pairwise_of_forall_mem_list
      intro a ha b hb
      have ha2 := hAp a ha
      have hb2 := hAp b hb
      simp only [hp, decide_eq_true_eq] at ha2 hb2
      rw [ha2, hb2]
    have hAB : List.Sublist (l.filter p)
        ((l.insertionSort (fun a b => b.net_edge_usd ≤ a.net_edge_usd)).filter p) := by
      have h1 : List.Sublist (l.filter p)
          (l.insertionSort (fun a b => b.net_edge_usd ≤ a.net_edge_usd)) :=
        List.sublist_insertionSort hApair hAsub
      have h2 := List.Sublist.filter p h1
      rwa [List.filter_filter, show (fun a => p a && p a) = p from by
        funext a; cases p a <;> rfl] at h2
    have hperm : List.Perm
        ((l.insertionSort (fun a b => b.net_edge_usd ≤ a.net_edge_usd)).filter p)
        (l.filter p) :=
      (List.perm_insertionSort _ l).filter p
    have hlen : (l.filter p).length =
        ((l.insertionSort (fun a b => b.net_edge_usd ≤ a.net_edge_usd)).filter p).length :=
      (hperm.length_eq).symm
    have := hAB.eq_of_length hlen
    rw [DetectorSuite.scan]
    exact this.symm

/-- A vertical-only configuration with a small edge floor. -/
def cfgVert : AppConfig :=
  { dry_run := true, max_ticket_usd := 20000, min_edge_usd := 10,
    min_edge_ratio_q := 3 / 2, hold_to_expiry := false,
    strategy_filter := ⟨[.vertical]⟩, max_concurrent_combos := 3,
    min_depth_contracts := 1 }

/-- Low-strike call quoted only at the ask, with a zero index price. -/
def instVertLow : InstrumentSnapshot :=
  { instrument :=
      { instrument_name := "L", currency := .btc, is_usdc_settled := true,
        is_combo := false, option_kind := .call, strike := 100, expiry := 1000000,
        contract_size := 1, settlement_currency := .usdc, tick_size := 1,
        min_trade_amount := 1 },
    quote :=
      { best_bid := none, best_ask := some ⟨100, 10⟩, mark_iv := none,
        bid_iv := none, ask_iv := none, interest_rate := none, timestamp := 0,
        index_price := 0 },
    order_book := none }

/-- High-strike call quoted only at the bid, with a zero index price. -/
def instVertHigh : InstrumentSnapshot :=
  { instrument :=
      { instrument_name := "H", currency := .btc, is_usdc_settled := true,
        is_combo := false, option_kind := .call, strike := 200, expiry := 1000000,
        contract_size := 1, settlement_currency := .usdc, tick_size := 1,
        min_trade_amount := 1 },
    quote :=
      { best_bid := some ⟨40, 10⟩, best_ask := none, mark_iv := none,
        bid_iv := none, ask_iv := none, interest_rate := none, timestamp := 0,
        index_price := 0 },
    order_book := none }

/-- The two-instrument snapshot for the vertical example. -/
def snapVert : List InstrumentSnapshot := [instVertLow, instVertHigh]

/-- C8 counterexample: with the base leg's `index_price` equal to zero, the
candidate is NOT skipped — `max_contracts_from_ticket` falls back to
`min_depth_contracts` and the scan emits a vertical opportunity whose
`reference_index` is zero with `size_contracts = 1`. -/
theorem ticket_sizing_counterexample :
    ∃ o ∈ DetectorSuite.scan cfgVert 0 snapVert,
      o.reference_index = 0 ∧ o.strategy = .vertical ∧ o.size_contracts = 1 := by
  norm_num [DetectorSuite.scan, collectOpportunities, scanGroups, groupByExpiry,
    groupByKey, insertGrouped, detectVerticals, processVerticalWindow, verticalSelect,
    depthLevel, maxContractsFromTicket, availableAmount, usdValue, nativeValue,
    FeeEngine.compute, computeTradeFee, sideTotal, waiveFee, deliveryTotals,
    deliveryFeePair, mkLegInput, isDailyOption, containsSeq, startsWithSeq,
    computeEdgeBps, collectAdj, StrategyFilter.allows, cfgVert, snapVert,
    instVertLow, instVertHigh, List.insertionSort, List.orderedInsert,
    List.contains, List.elem]

/-- The depth gate only passes through present levels of sufficient amount. -/
theorem depthLevel_eq_some {cfg : AppConfig} {lvl : Option QuoteLevel} {l : QuoteLevel}
    (h : depthLevel cfg lvl = some l) :
    lvl = some l ∧ (cfg.min_depth_contracts : ℚ) ≤ l.amount := by
  unfold depthLevel at h
  split at h
  · split at h
    · rename_i hd
      cases h
      exact ⟨rfl, hd⟩
    · cases h
  · cases h

/-- The buy leg selected for a vertical is quoted at its own best ask, and
both selected touches clear the depth gate. -/
theorem verticalSelect_facts {cfg : AppConfig} {low high bi si : InstrumentSnapshot}
    {bq sq : QuoteLevel}
    (h : verticalSelect cfg low high = some (bi, bq, si, sq)) :
    bi.quote.best_ask = some bq ∧ (cfg.min_depth_contracts : ℚ) ≤ bq.amount ∧
    (cfg.min_depth_contracts : ℚ) ≤ sq.amount := by
  unfold verticalSelect at h
  dsimp only at h
  split at h
  · split at h
    · rename_i ha hb
      simp only [Option.some.injEq, Prod.mk.injEq] at h
      rcases h with ⟨h1, h2, h3, h4⟩
      subst h1; subst h2; subst h3; subst h4
      rcases depthLevel_eq_some ha with ⟨ha1, ha2⟩
      rcases depthLevel_eq_some hb with ⟨-, hb2⟩
      exact ⟨ha1, ha2, hb2⟩
    · cases h
  · split at h
    · rename_i ha hb
      simp only [Option.some.injEq, Prod.mk.injEq] at h
      rcases h with ⟨h1, h2, h3, h4⟩
      subst h1; subst h2; subst h3; subst h4
      rcases depthLevel_eq_some ha with ⟨ha1, ha2⟩
      rcases depthLevel_eq_some hb with ⟨-, hb2⟩
      exact ⟨ha1, ha2, hb2⟩
    · cases h

/-- With the base leg quoted at its best ask, the available amount used by the
ticket cap is at least that ask amount. -/
theorem availableAmount_ge {cfg : AppConfig} {inst : InstrumentSnapshot}
    {bq : QuoteLevel} (h : inst.quote.best_ask = some bq) :
    bq.amount ≤ availableAmount cfg inst := by
  unfold availableAmount
  rw [h]
  cases hb : inst.quote.best_bid with
  | none => exact le_refl _
  | some b => exact le_max_left _ _

/-- With the base leg quoted at its best bid, the available amount used by
the ticket cap is at least that bid amount. -/
theorem availableAmount_ge_bid {cfg : AppConfig} {inst : InstrumentSnapshot}
    {b : QuoteLevel} (h : inst.quote.best_bid = some b) :
    b.amount ≤ availableAmount cfg inst := by
  unfold availableAmount
  rw [h]
  cases ha : inst.quote.best_ask with
  | none => exact le_refl _
  | some a => exact le_max_right _ _

/-- The shared absorption step of every detector's sizing: when the
amount-minimum is bounded by the available amount and the base leg's index
and contract size are positive with a non-negative ticket, taking the
minimum with `max_contracts_from_ticket` is taking the minimum with the raw
ticket cap. -/
theorem min_maxContractsFromTicket {cfg : AppConfig} {inst : InstrumentSnapshot}
    {m : ℚ} (hm : m ≤ availableAmount cfg inst)
    (h0 : 0 ≤ availableAmount cfg inst)
    (hipos : 0 < inst.quote.index_price)
    (hcpos : 0 < inst.instrument.contract_size)
    (hticket : 0 ≤ cfg.max_ticket_usd) :
    min m (maxContractsFromTicket cfg inst) =
      min m (cfg.max_ticket_usd /
        (inst.quote.index_price * inst.instrument.contract_size)) := by
  have hnz : inst.quote.index_price ≠ 0 := ne_of_gt hipos
  have hnot : inst.quote.index_price * inst.instrument.contract_size ≠ 0 :=
    ne_of_gt (mul_pos hipos hcpos)
  have hmax : maxContractsFromTicket cfg inst =
      min (cfg.max_ticket_usd /
          (inst.quote.index_price * inst.instrument.contract_size))
        (availableAmount cfg inst) := by
    unfold maxContractsFromTicket
    rw [if_neg hnz, if_neg hnot]
    exact max_eq_left (le_min
      (div_nonneg hticket (le_of_lt (mul_pos hipos hcpos))) h0)
  rw [hmax, ← min_assoc]
  exact min_eq_left (le_trans (min_le_left _ _) hm)

/-- The butterfly's base (low) leg is quoted at its own best ask and clears
the depth gate. -/
theorem butterflySelect_facts {cfg : AppConfig} {low mid high : InstrumentSnapshot}
    {al bm ah : QuoteLevel}
    (h : butterflySelect cfg low mid high = some (al, bm, ah)) :
    low.quote.best_ask = some al ∧ (cfg.min_depth_contracts : ℚ) ≤ al.amount := by
  unfold butterflySelect at h
  split at h
  · rename_i ha hb hc
    simp only [Option.some.injEq, Prod.mk.injEq] at h
    rcases h with ⟨h1, h2, h3⟩
    subst h1
    exact depthLevel_eq_some ha
  · cases h

/-- The calendar's base (near) leg is quoted at its own best bid and clears
the depth gate. -/
theorem calendarSelect_facts {cfg : AppConfig} {near far : InstrumentSnapshot}
    {nb fa : QuoteLevel} (h : calendarSelect cfg near far = some (nb, fa)) :
    near.quote.best_bid = some nb ∧ (cfg.min_depth_contracts : ℚ) ≤ nb.amount := by
  unfold calendarSelect at h
  split at h
  · rename_i ha hb
    simp only [Option.some.injEq, Prod.mk.injEq] at h
    rcases h with ⟨h1, h2⟩
    subst h1
    exact depthLevel_eq_some ha
  · cases h

/-- The box's base (low call) leg is quoted at its own best ask and clears
the depth gate. -/
theorem boxSelect_facts {cfg : AppConfig}
    {c_low c_high p_low p_high : InstrumentSnapshot} {a b c d : QuoteLevel}
    (h : boxSelect cfg c_low c_high p_low p_high = some (a, b, c, d)) :
    c_low.quote.best_ask = some a ∧ (cfg.min_depth_contracts : ℚ) ≤ a.amount := by
  unfold boxSelect at h
  split at h
  · rename_i ha hb hc hd
    simp only [Option.some.injEq, Prod.mk.injEq] at h
    rcases h with ⟨h1, h2, h3, h4⟩
    subst h1
    exact depthLevel_eq_some ha
  · cases h

/-- The jelly roll's base (near call) leg is quoted at its own best ask and
clears the depth gate. -/
theorem jellySelect_facts {cfg : AppConfig}
    {nc np fc fp : InstrumentSnapshot} {a b c d : QuoteLevel}
    (h : jellySelect cfg nc np fc fp = some (a, b, c, d)) :
    nc.quote.best_ask = some a ∧ (cfg.min_depth_contracts : ℚ) ≤ a.amount := by
  unfold jellySelect at h
  split at h
  · rename_i ha hb hc hd
    simp only [Option.some.injEq, Prod.mk.injEq] at h
    rcases h with ⟨h1, h2, h3, h4⟩
    subst h1
    exact depthLevel_eq_some ha
  · cases h

/-- The size a successfully emitted butterfly was given by the source. -/
theorem processButterflyWindow_size {cfg : AppConfig} {now : Int}
    {currency : Currency} {settlement : SettlementCurrency} {expiry : Int}
    {low mid high : InstrumentSnapshot} {o : StrategyOpportunity}
    (h : processButterflyWindow cfg now currency settlement expiry low mid high =
      .ok (some o)) :
    0 < o.size_contracts ∧
    ∃ al bm ah, butterflySelect cfg low mid high = some (al, bm, ah) ∧
      o.size_contracts = min (min (min al.amount ah.amount) (bm.amount / 2))
        (maxContractsFromTicket cfg low) := by
  unfold processButterflyWindow at h
  split at h
  · simp at h
  rename_i ask_low bid_mid ask_high hsel
  dsimp only at h
  split at h
  · simp at h
  rename_i hsize
  split at h
  · simp at h
  rename_i fee hfee
  split at h
  · simp at h
  rename_i hnet
  split at h
  · simp at h
  rename_i hminedge
  split at h
  · simp at h
  rename_i hquot
  simp only [Except.ok.injEq, Option.some.injEq] at h
  subst h
  exact ⟨not_le.mp hsize, ask_low, bid_mid, ask_high, hsel, rfl⟩

/-- The size a successfully emitted calendar was given by the source. -/
theorem processCalendarPair_size {cfg : AppConfig} {now : Int}
    {currency : Currency} {settlement : SettlementCurrency}
    {near far : InstrumentSnapshot} {o : StrategyOpportunity}
    (h : processCalendarPair cfg now currency settlement near far = .ok (some o)) :
    0 < o.size_contracts ∧
    ∃ nb fa, calendarSelect cfg near far = some (nb, fa) ∧
      o.size_contracts = min (min nb.amount fa.amount)
        (maxContractsFromTicket cfg near) := by
  unfold processCalendarPair at h
  split at h
  · simp at h
  split at h
  · simp at h
  rename_i near_bid far_ask hsel
  dsimp only at h
  split at h
  · simp at h
  rename_i hsize
  split at h
  · simp at h
  rename_i hcredit
  split at h
  · simp at h
  rename_i fee hfee
  split at h
  · simp at h
  rename_i hnet
  split at h
  · simp at h
  rename_i hminedge
  split at h
  · simp at h
  rename_i hquot
  simp only [Except.ok.injEq, Option.some.injEq] at h
  subst h
  exact ⟨not_le.mp hsize, near_bid, far_ask, hsel, rfl⟩

/-- The size a successfully emitted box was given by the source. -/
theorem processBoxPair_size {cfg : AppConfig} {now : Int} {currency : Currency}
    {settlement : SettlementCurrency} {puts : List InstrumentSnapshot}
    {c_low c_high : InstrumentSnapshot} {o : StrategyOpportunity}
    (h : processBoxPair cfg now currency settlement puts c_low c_high =
      .ok (some o)) :
    0 < o.size_contracts ∧
    ∃ p_low p_high acl bch aph bpl,
      boxPutPair puts c_low c_high = some (p_low, p_high) ∧
      boxSelect cfg c_low c_high p_low p_high = some (acl, bch, aph, bpl) ∧
      o.size_contracts =
        min (min (min (min acl.amount bch.amount) aph.amount) bpl.amount)
          (maxContractsFromTicket cfg c_low) := by
  unfold processBoxPair at h
  split at h
  · simp at h
  rename_i p_low p_high hputs
  split at h
  · simp at h
  rename_i a1 a2 a3 a4 hsel
  dsimp only at h
  split at h
  · simp at h
  rename_i hsize
  split at h
  · simp at h
  rename_i fee hfee
  split at h
  · simp at h
  rename_i hnet
  split at h
  · simp at h
  rename_i hminedge
  simp only [Except.ok.injEq, Option.some.injEq] at h
  subst h
  exact ⟨not_le.mp hsize, p_low, p_high, a1, a2, a3, a4, hputs, hsel, rfl⟩

/-- The size a successfully emitted jelly roll was given by the source. -/
theorem processJellyPair_size {cfg : AppConfig} {now : Int} {currency : Currency}
    {strike : ℚ} {settlement : SettlementCurrency}
    {near far : Int × InstrumentSnapshot × InstrumentSnapshot}
    {o : StrategyOpportunity}
    (h : processJellyPair cfg now currency strike settlement near far =
      .ok (some o)) :
    0 < o.size_contracts ∧
    ∃ acn bpn bcf apf,
      jellySelect cfg near.2.1 near.2.2 far.2.1 far.2.2 =
        some (acn, bpn, bcf, apf) ∧
      o.size_contracts =
        min (min (min (min acn.amount bpn.amount) bcf.amount) apf.amount)
          (maxContractsFromTicket cfg near.2.1) := by
  unfold processJellyPair at h
  dsimp only at h
  split at h
  · simp at h
  rename_i a1 a2 a3 a4 hsel
  split at h
  · simp at h
  rename_i hsize
  split at h
  · simp at h
  rename_i hdebit
  split at h
  · simp at h
  rename_i fee hfee
  split at h
  · simp at h
  rename_i hnet
  split at h
  · simp at h
  rename_i hminedge
  split at h
  · simp at h
  rename_i hquot
  simp only [Except.ok.injEq, Option.some.injEq] at h
  subst h
  exact ⟨not_le.mp hsize, a1, a2, a3, a4, hsel, rfl⟩

/-- C8 (amended): in EVERY detector's sizing step the candidate is skipped
exactly when the computed `size_contracts` collapses to (at most) zero; a
zero base-leg `index_price` (or per-contract notional) does NOT skip the
candidate — `max_contracts_from_ticket` falls back to `min_depth_contracts`
instead — and in each of the five detectors, when the base leg's index
price and contract size are positive and the ticket is non-negative, the
emitted size is exactly the minimum of the (ratio-scaled) touch amounts and
the ticket cap `max_ticket_usd / (reference_index × contract_size)` of the
base leg. -/
theorem detector_sizing (cfg : AppConfig) (now : Int) :
    (∀ inst : InstrumentSnapshot,
      (inst.quote.index_price = 0 ∨
       inst.quote.index_price * inst.instrument.contract_size = 0) →
      maxContractsFromTicket cfg inst = (cfg.min_depth_contracts : ℚ)) ∧
    (∀ (currency : Currency) (settlement : SettlementCurrency) (expiry : Int)
      (low high : InstrumentSnapshot) (o : StrategyOpportunity),
      processVerticalWindow cfg now currency settlement expiry low high =
        .ok (some o) →
      0 < o.size_contracts ∧
      ∀ (bi : InstrumentSnapshot) (bq : QuoteLevel) (si : InstrumentSnapshot)
        (sq : QuoteLevel), verticalSelect cfg low high = some (bi, bq, si, sq) →
        0 < bi.quote.index_price → 0 < bi.instrument.contract_size →
        0 ≤ cfg.max_ticket_usd →
        o.size_contracts = min (min bq.amount sq.amount)
          (cfg.max_ticket_usd /
            (bi.quote.index_price * bi.instrument.contract_size))) ∧
    (∀ (currency : Currency) (settlement : SettlementCurrency) (expiry : Int)
      (low mid high : InstrumentSnapshot) (o : StrategyOpportunity),
      processButterflyWindow cfg now currency settlement expiry low mid high =
        .ok (some o) →
      0 < o.size_contracts ∧
      ∀ (al bm ah : QuoteLevel),
        butterflySelect cfg low mid high = some (al, bm, ah) →
        0 < low.quote.index_price → 0 < low.instrument.contract_size →
        0 ≤ cfg.max_ticket_usd →
        o.size_contracts = min (min (min al.amount ah.amount) (bm.amount / 2))
          (cfg.max_ticket_usd /
            (low.quote.index_price * low.instrument.contract_size))) ∧
    (∀ (currency : Currency) (settlement : SettlementCurrency)
      (near far : InstrumentSnapshot) (o : StrategyOpportunity),
      processCalendarPair cfg now currency settlement near far = .ok (some o) →
      0 < o.size_contracts ∧
      ∀ (nb fa : QuoteLevel), calendarSelect cfg near far = some (nb, fa) →
        0 < near.quote.index_price → 0 < near.instrument.contract_size →
        0 ≤ cfg.max_ticket_usd →
        o.size_contracts = min (min nb.amount fa.amount)
          (cfg.max_ticket_usd /
            (near.quote.index_price * near.instrument.contract_size))) ∧
    (∀ (currency : Currency) (settlement : SettlementCurrency)
      (puts : List InstrumentSnapshot) (c_low c_high : InstrumentSnapshot)
      (o : StrategyOpportunity),
      processBoxPair cfg now currency settlement puts c_low c_high =
        .ok (some o) →
      0 < o.size_contracts ∧
      ∀ (p_low p_high : InstrumentSnapshot) (acl bch aph bpl : QuoteLevel),
        boxPutPair puts c_low c_high = some (p_low, p_high) →
        boxSelect cfg c_low c_high p_low p_high = some (acl, bch, aph, bpl) →
        0 < c_low.quote.index_price → 0 < c_low.instrument.contract_size →
        0 ≤ cfg.max_ticket_usd →
        o.size_contracts =
          min (min (min (min acl.amount bch.amount) aph.amount) bpl.amount)
            (cfg.max_ticket_usd /
              (c_low.quote.index_price * c_low.instrument.contract_size))) ∧
    (∀ (currency : Currency) (strike : ℚ) (settlement : SettlementCurrency)
      (near far : Int × InstrumentSnapshot × InstrumentSnapshot)
      (o : StrategyOpportunity),
      processJellyPair cfg now currency strike settlement near far =
        .ok (some o) →
      0 < o.size_contracts ∧
      ∀ (acn bpn bcf apf : QuoteLevel),
        jellySelect cfg near.2.1 near.2.2 far.2.1 far.2.2 =
          some (acn, bpn, bcf, apf) →
        0 < (near.2.1).quote.index_price →
        0 < (near.2.1).instrument.contract_size →
        0 ≤ cfg.max_ticket_usd →
        o.size_contracts =
          min (min (min (min acn.amount bpn.amount) bcf.amount) apf.amount)
            (cfg.max_ticket_usd /
              ((near.2.1).quote.index_price *
                (near.2.1).instrument.contract_size))) := by
  have hdepth0 : (0 : ℚ) ≤ (cfg.min_depth_contracts : ℚ) := by positivity
  refine ⟨?_, ?_, ?_, ?_, ?_, ?_⟩
  · intro inst hz
    unfold maxContractsFromTicket
    rcases hz with hz | hz
    · rw [if_pos hz]
    · by_cases hiz : inst.quote.index_price = 0
      · rw [if_pos hiz]
      · rw [if_neg hiz, if_pos hz]
  · intro currency settlement expiry low high o h
    rcases processVerticalWindow_ok h with
      ⟨-, -, hsize, -, -, -, -, -, -, bi0, bq0, si0, sq0, hsel0, -, hsz⟩
    refine ⟨hsize, ?_⟩
    intro bi bq si sq hsel hipos hcpos hticket
    rcases verticalSelect_facts hsel with ⟨hask, hbq, hsq⟩
    rw [hsel0] at hsel
    simp only [Option.some.injEq, Prod.mk.injEq] at hsel
    rcases hsel with ⟨h1, h2, -, h4⟩
    rw [h1, h2, h4] at hsz
    have havail : bq.amount ≤ availableAmount cfg bi := availableAmount_ge hask
    rw [hsz]
    exact min_maxContractsFromTicket (le_trans (min_le_left _ _) havail)
      (le_trans (le_trans hdepth0 hbq) havail) hipos hcpos hticket
  · intro currency settlement expiry low mid high o h
    rcases processButterflyWindow_size h with ⟨hsize, al0, bm0, ah0, hsel0, hsz⟩
    refine ⟨hsize, ?_⟩
    intro al bm ah hsel hipos hcpos hticket
    rcases butterflySelect_facts hsel with ⟨hask, hal⟩
    rw [hsel0] at hsel
    simp only [Option.some.injEq, Prod.mk.injEq] at hsel
    rcases hsel with ⟨h1, h2, h3⟩
    rw [h1, h2, h3] at hsz
    have havail : al.amount ≤ availableAmount cfg low := availableAmount_ge hask
    rw [hsz]
    exact min_maxContractsFromTicket
      (le_trans (min_le_left _ _) (le_trans (min_le_left _ _) havail))
      (le_trans (le_trans hdepth0 hal) havail) hipos hcpos hticket
  · intro currency settlement near far o h
    rcases processCalendarPair_size h with ⟨hsize, nb0, fa0, hsel0, hsz⟩
    refine ⟨hsize, ?_⟩
    intro nb fa hsel hipos hcpos hticket
    rcases calendarSelect_facts hsel with ⟨hbid, hnb⟩
    rw [hsel0] at hsel
    simp only [Option.some.injEq, Prod.mk.injEq] at hsel
    rcases hsel with ⟨h1, h2⟩
    rw [h1, h2] at hsz
    have havail : nb.amount ≤ availableAmount cfg near := availableAmount_ge_bid hbid
    rw [hsz]
    exact min_maxContractsFromTicket (le_trans (min_le_left _ _) havail)
      (le_trans (le_trans hdepth0 hnb) havail) hipos hcpos hticket
  · intro currency settlement puts c_low c_high o h
    rcases processBoxPair_size h with
      ⟨hsize, pl0, ph0, a0, b0, c0, d0, hputs0, hsel0, hsz⟩
    refine ⟨hsize, ?_⟩
    intro p_low p_high acl bch aph bpl hputs hsel hipos hcpos hticket
    rcases boxSelect_facts hsel with ⟨hask, hacl⟩
    rw [hputs0] at hputs
    simp only [Option.some.injEq, Prod.mk.injEq] at hputs
    rcases hputs with ⟨hp1, hp2⟩
    rw [hp1, hp2] at hsel0
    rw [hsel0] at hsel
    simp only [Option.some.injEq, Prod.mk.injEq] at hsel
    rcases hsel with ⟨h1, h2, h3, h4⟩
    rw [h1, h2, h3, h4] at hsz
    have havail : acl.amount ≤ availableAmount cfg c_low := availableAmount_ge hask
    rw [hsz]
    exact min_maxContractsFromTicket
      (le_trans (min_le_left _ _) (le_trans (min_le_left _ _)
        (le_trans (min_le_left _ _) havail)))
      (le_trans (le_trans hdepth0 hacl) havail) hipos hcpos hticket
  · intro currency strike settlement near far o h
    rcases processJellyPair_size h with ⟨hsize, a0, b0, c0, d0, hsel0, hsz⟩
    refine ⟨hsize, ?_⟩
    intro acn bpn bcf apf hsel hipos hcpos hticket
    rcases jellySelect_facts hsel with ⟨hask, hacn⟩
    rw [hsel0] at hsel
    simp only [Option.some.injEq, Prod.mk.injEq] at hsel
    rcases hsel with ⟨h1, h2, h3, h4⟩
    rw [h1, h2, h3, h4] at hsz
    have havail : acn.amount ≤ availableAmount cfg near.2.1 :=
      availableAmount_ge hask
    rw [hsz]
    exact min_maxContractsFromTicket
      (le_trans (min_le_left _ _) (le_trans (min_le_left _ _)
        (le_trans (min_le_left _ _) havail)))
      (le_trans (le_trans hdepth0 hacn) havail) hipos hcpos hticket

/-- The vertical opportunity the zero-index example emits. -/
def oVert : StrategyOpportunity :=
  match processVerticalWindow cfgVert 0 .btc .usdc 1000000 instVertLow instVertHigh with
  | .ok (some o) => o
  | _ => default

/-- Witness for the sizing theorem: the zero-index fallback evaluated on the
concrete example, and a concrete vertical emission with positive size. -/
theorem detector_sizing_check :
    maxContractsFromTicket cfgVert instVertLow = (cfgVert.min_depth_contracts : ℚ) ∧
    0 < oVert.size_contracts :=
  ⟨(detector_sizing cfgVert 0).1 instVertLow
    (Or.inl (by norm_num [instVertLow])),
   ((detector_sizing cfgVert 0).2.1 .btc .usdc 1000000 instVertLow instVertHigh
     oVert
     (by norm_num [oVert, processVerticalWindow, verticalSelect, depthLevel,
       maxContractsFromTicket, availableAmount, usdValue, nativeValue,
       FeeEngine.compute, computeTradeFee, sideTotal, waiveFee, deliveryTotals,
       deliveryFeePair, mkLegInput, isDailyOption, containsSeq, startsWithSeq,
       computeEdgeBps, cfgVert, instVertLow, instVertHigh])).1⟩

/-- C4: every Vertical opportunity in the scan output has a non-negative
native debit (`total_cost`), a USD debit bounded by
(strike_high − strike_low) × size_contracts × contract_size + 1e-6, and
`net_edge_usd` = max_payout_usd − debit_usd − total_fees_usd. -/
theorem vertical_debit_bounds (cfg : AppConfig) (now : Int)
    (snapshot : List InstrumentSnapshot) (o : StrategyOpportunity)
    (ho : o ∈ DetectorSuite.scan cfg now snapshot)
    (hstrat : o.strategy = .vertical) :
    0 ≤ o.total_cost ∧
    ∃ kLow kHigh cs : ℚ, o.strikes = [kLow, kHigh] ∧
      usdValue o.settlement o.total_cost o.reference_index ≤
        (kHigh - kLow) * o.size_contracts * cs + 1 / 1000000 ∧
      o.net_edge_usd =
        (kHigh - kLow) * o.size_contracts * cs -
          usdValue o.settlement o.total_cost o.reference_index -
          o.fee_breakdown.total_usd := by
  rw [DetectorSuite.scan, List.mem_insertionSort] at ho
  rcases collectOpportunities_mem ho with
    ⟨c, s, e, low, high, hv⟩ | ⟨c, s, e, l, m, hgh, hb⟩ | ⟨c, s, n, f, hc⟩ |
    ⟨c, s, p, cl, ch, hbx⟩ | ⟨c, k, s, n, f, hj⟩
  · rcases processVerticalWindow_ok hv with
      ⟨-, hset, -, -, -, hcost, hstrikes, hcap, hnet, -⟩
    subst hset
    exact ⟨hcost, low.instrument.strike, high.instrument.strike,
      low.instrument.contract_size, hstrikes, hcap, hnet⟩
  · have hs := (processButterflyWindow_ok hb).1
    rw [hstrat] at hs
    cases hs
  · have hs := (processCalendarPair_ok hc).1
    rw [hstrat] at hs
    cases hs
  · have hs := (processBoxPair_ok hbx).1
    rw [hstrat] at hs
    cases hs
  · have hs := (processJellyPair_ok hj).1
    rw [hstrat] at hs
    cases hs

/-- Witness for the vertical debit bounds on the concrete scan example. -/
theorem vertical_debit_bounds_check :
    0 ≤ oVert.total_cost ∧
    ∃ kLow kHigh cs : ℚ, oVert.strikes = [kLow, kHigh] ∧
      usdValue oVert.settlement oVert.total_cost oVert.reference_index ≤
        (kHigh - kLow) * oVert.size_contracts * cs + 1 / 1000000 ∧
      oVert.net_edge_usd =
        (kHigh - kLow) * oVert.size_contracts * cs -
          usdValue oVert.settlement oVert.total_cost oVert.reference_index -
          oVert.fee_breakdown.total_usd :=
  vertical_debit_bounds cfgVert 0 snapVert oVert
    (by norm_num [oVert, DetectorSuite.scan, collectOpportunities, scanGroups,
      groupByExpiry, groupByKey, insertGrouped, detectVerticals,
      processVerticalWindow, verticalSelect, depthLevel, maxContractsFromTicket,
      availableAmount, usdValue, nativeValue, FeeEngine.compute, computeTradeFee,
      sideTotal, waiveFee, deliveryTotals, deliveryFeePair, mkLegInput,
      isDailyOption, containsSeq, startsWithSeq, computeEdgeBps, collectAdj,
      StrategyFilter.allows, cfgVert, snapVert, instVertLow, instVertHigh,
      List.insertionSort, List.orderedInsert, List.contains, List.elem])
    (by norm_num [oVert, processVerticalWindow, verticalSelect, depthLevel,
      maxContractsFromTicket, availableAmount, usdValue, nativeValue,
      FeeEngine.compute, computeTradeFee, sideTotal, waiveFee, deliveryTotals,
      deliveryFeePair, mkLegInput, isDailyOption, containsSeq, startsWithSeq,
      computeEdgeBps, cfgVert, instVertLow, instVertHigh])

/-- Configuration for the box example: only the Box detector enabled, with a
minimum edge ratio of 20. -/
def cfgBox : AppConfig :=
  { dry_run := true, max_ticket_usd := 20000, min_edge_usd := 50,
    min_edge_ratio_q := 20, hold_to_expiry := false,
    strategy_filter := ⟨[.box]⟩, max_concurrent_combos := 3,
    min_depth_contracts := 1 }

/-- Low-strike call of the box example. -/
def instBoxCLow : InstrumentSnapshot :=
  { instrument :=
      { instrument_name := "C1", currency := .btc, is_usdc_settled := true,
        is_combo := false, option_kind := .call, strike := 1000, expiry := 1000000,
        contract_size := 1, settlement_currency := .usdc, tick_size := 1,
        min_trade_amount := 1 },
    quote :=
      { best_bid := none, best_ask := some ⟨300, 10⟩, mark_iv := none,
        bid_iv := none, ask_iv := none, interest_rate := none, timestamp := 0,
        index_price := 100000 },
    order_book := none }

/-- High-strike call of the box example. -/
def instBoxCHigh : InstrumentSnapshot :=
  { instrument :=
      { instrument_name := "C2", currency := .btc, is_usdc_settled := true,
        is_combo := false, option_kind := .call, strike := 2000, expiry := 1000000,
        contract_size := 1, settlement_currency := .usdc, tick_size := 1,
        min_trade_amount := 1 },
    quote :=
      { best_bid := some ⟨250, 10⟩, best_ask := none, mark_iv := none,
        bid_iv := none, ask_iv := none, interest_rate := none, timestamp := 0,
        index_price := 100000 },
    order_book := none }

/-- Low-strike put of the box example. -/
def instBoxPLow : InstrumentSnapshot :=
  { instrument :=
      { instrument_name := "P1", currency := .btc, is_usdc_settled := true,
        is_combo := false, option_kind := .put, strike := 1000, expiry := 1000000,
        contract_size := 1, settlement_currency := .usdc, tick_size := 1,
        min_trade_amount := 1 },
    quote :=
      { best_bid := some ⟨250, 10⟩, best_ask := none, mark_iv := none,
        bid_iv := none, ask_iv := none, interest_rate := none, timestamp := 0,
        index_price := 100000 },
    order_book := none }

/-- High-strike put of the box example. -/
def instBoxPHigh : InstrumentSnapshot :=
  { instrument :=
      { instrument_name := "P2", currency := .btc, is_usdc_settled := true,
        is_combo := false, option_kind := .put, strike := 2000, expiry := 1000000,
        contract_size := 1, settlement_currency := .usdc, tick_size := 1,
        min_trade_amount := 1 },
    quote :=
      { best_bid := none, best_ask := some ⟨300, 10⟩, mark_iv := none,
        bid_iv := none, ask_iv := none, interest_rate := none, timestamp := 0,
        index_price := 100000 },
    order_book := none }

/-- The four-instrument snapshot for the box example. -/
def snapBox : List InstrumentSnapshot :=
  [instBoxCLow, instBoxCHigh, instBoxPLow, instBoxPHigh]

/-- C2: the Box detector omits the `min_edge_ratio` filter that every other
detector applies, so the scan can return a Box opportunity whose
`net_edge_usd / max(total_fees_usd, 0.01)` is strictly below the configured
`min_edge_ratio` — here the ratio is 14 against a configured minimum of
20. -/
theorem box_ratio_counterexample :
    ∃ o ∈ DetectorSuite.scan cfgBox 0 snapBox,
      o.strategy = .box ∧
      o.net_edge_usd / max o.fee_breakdown.total_usd (0.01 : ℚ) <
        cfgBox.min_edge_ratio_q := by
  norm_num [DetectorSuite.scan, collectOpportunities, scanGroups, groupByExpiry,
    groupByKey, insertGrouped, detectCalendars, detectBoxes, detectJellyRolls,
    boxGroup, boxPutPair, boxSelect, processBoxPair, depthLevel,
    maxContractsFromTicket, availableAmount, usdValue, nativeValue,
    FeeEngine.compute, computeTradeFee, sideTotal, waiveFee, deliveryTotals,
    deliveryFeePair, mkLegInput, isDailyOption, containsSeq, startsWithSeq,
    computeEdgeBps, collectAdj, collectConcat, StrategyFilter.allows, cfgBox,
    snapBox, instBoxCLow, instBoxCHigh, instBoxPLow, instBoxPHigh,
    List.insertionSort, List.orderedInsert, List.contains, List.elem,
    List.find?, List.filter, beq_iff_eq,
    show (StrategyKind.vertical == StrategyKind.box) = false from rfl,
    show (StrategyKind.butterfly == StrategyKind.box) = false from rfl,
    show (StrategyKind.calendar == StrategyKind.box) = false from rfl,
    show (StrategyKind.jellyRoll == StrategyKind.box) = false from rfl,
    show (StrategyKind.box == StrategyKind.box) = true from rfl,
    show (decide ((1000 : ℚ) = 1000)) = true from by simp,
    show (decide ((2000 : ℚ) = 1000)) = false from by simp,
    show (decide ((1000 : ℚ) = 2000)) = false from by simp,
    show (decide ((2000 : ℚ) = 2000)) = true from by simp,
    show (|(1 / 5 : ℚ)|) = 1 / 5 from abs_of_pos (by norm_num),
    show (ComboSide.sell = ComboSide.buy) ↔ False from by decide,
    show (ComboSide.buy = ComboSide.sell) ↔ False from by decide,
    show (ComboSide.buy = ComboSide.buy) ↔ True from by decide,
    show (ComboSide.sell = ComboSide.sell) ↔ True from by decide]

/-- A separator-free string splits as a single part. -/
theorem splitOnChar_no_sep {sep : Char} {a : List Char}
    (h : ∀ c ∈ a, c ≠ sep) : splitOnChar sep a = [a] := by
  induction a with
  | nil => rfl
  | cons c a' ih =>
    unfold splitOnChar
    rw [if_neg (h c (List.mem_cons_self c a')),
      ih (fun x hx => h x (List.mem_cons_of_mem c hx))]

/-- Splitting peels off a separator-free prefix before a separator. -/
theorem splitOnChar_append {sep : Char} {a b : List Char}
    (h : ∀ c ∈ a, c ≠ sep) :
    splitOnChar sep (a ++ sep :: b) = a :: splitOnChar sep b := by
  induction a with
  | nil =>
    show splitOnChar sep (sep :: b) = [] :: splitOnChar sep b
    rw [splitOnChar, if_pos rfl]
  | cons c a' ih =>
    show splitOnChar sep (c :: (a' ++ sep :: b)) = (c :: a') :: splitOnChar sep b
    rw [splitOnChar, if_neg (h c (List.mem_cons_self c a')),
      ih (fun x hx => h x (List.mem_cons_of_mem c hx))]

/-- An ASCII digit is none of the parser's special characters. -/
theorem digit_ne {c : Char} (h : c.isDigit = true) :
    c ≠ '-' ∧ c ≠ '+' ∧ c ≠ '.' ∧ c ≠ '_' := by
  refine ⟨?_, ?_, ?_, ?_⟩ <;> intro he <;> subst he <;>
    exact absurd h (by decide)

/-- Strings whose uppercase image avoids the dash contain no dash. -/
theorem ne_dash_of_upper {cs T : List Char} (h : cs.map Char.toUpper = T)
    (hT : ¬ ('-' ∈ T)) : ∀ c ∈ cs, c ≠ '-' := by
  intro x hx he
  subst he
  apply hT
  have hmem : Char.toUpper '-' ∈ cs.map Char.toUpper :=
    List.mem_map_of_mem _ hx
  rw [h] at hmem
  have hu : Char.toUpper '-' = '-' := by decide
  rwa [hu] at hmem

/-- The spec-side day text parses back to the day value. -/
theorem dayText_parse : ∀ d : Nat, d < 100 →
    parseU32 (dayText d) = some d ∧ (∀ c ∈ dayText d, c ≠ '-') ∧
    1 ≤ (dayText d).length := by decide

/-- The spec-side year text parses back to `2000 + yy`. -/
theorem yearText_parse : ∀ yy : Nat, yy < 100 →
    parseU32 ('2' :: '0' :: yearText yy) = some (2000 + yy) ∧
    (∀ c ∈ yearText yy, c ≠ '-') ∧ (yearText yy).length = 2 := by decide

/-- The spec-side month names are three uppercase letters that the
`expiry_date` month table maps back to their index. -/
theorem monthText_facts : ∀ m : Nat, m < 13 → 1 ≤ m →
    (monthText m).length = 3 ∧ monthNumber (monthText m) = some m ∧
    ¬ ('-' ∈ monthText m) := by decide

/-- A string uppercasing to a currency code parses to that currency. -/
theorem parseCurrency_ok {cs : List Char} {c : Currency}
    (h : cs.map Char.toUpper = currencyText c) : parseCurrency cs = .ok c := by
  unfold parseCurrency
  dsimp only
  rw [h]
  cases c <;> simp [currencyText]

/-- A string uppercasing to an accepted kind spelling parses to that kind. -/
theorem parseOptionKind_ok {ks : List Char} {k : OptionKind}
    (h : ks.map Char.toUpper ∈ kindStrings k) : parseOptionKind ks = .ok k := by
  unfold parseOptionKind
  dsimp only
  cases k
  · simp only [kindStrings, List.mem_cons, List.not_mem_nil, or_false] at h
    rcases h with h | h
    · rw [h, if_pos (Or.inl rfl)]
    · rw [h, if_pos (Or.inr rfl)]
  · simp only [kindStrings, List.mem_cons, List.not_mem_nil, or_false] at h
    rcases h with h | h
    · rw [h, if_neg (by decide), if_pos (Or.inl rfl)]
    · rw [h, if_neg (by decide), if_pos (Or.inr rfl)]

/-- A bare digit string (1–28 digits) parses as the integer it spells. -/
theorem parseDecimal_digits {ds : List Char} (h1 : ds ≠ [])
    (h2 : ds.all Char.isDigit = true) (h3 : ds.length ≤ 28) :
    parseDecimal ds = some (digitsToNat ds : ℚ) := by
  have hall : ∀ c ∈ ds, c.isDigit = true := List.all_eq_true.mp h2
  obtain ⟨c0, ds', rfl⟩ : ∃ c0 ds', ds = c0 :: ds' := by
    cases ds with
    | nil => exact absurd rfl h1
    | cons x xs => exact ⟨x, xs, rfl⟩
  have hc0 := digit_ne (hall c0 (List.mem_cons_self c0 ds'))
  have hne1 : ¬ ((c0 :: ds').head? = some '-') := by
    intro he
    exact hc0.1 (Option.some.inj he)
  have hne2 : ¬ ((c0 :: ds').head? = some '-' ∨ (c0 :: ds').head? = some '+') := by
    rintro (he | he)
    · exact hc0.1 (Option.some.inj he)
    · exact hc0.2.1 (Option.some.inj he)
  unfold parseDecimal
  dsimp only
  rw [if_neg hne1, if_neg hne2]
  have hfilter : (c0 :: ds').filter (fun c => decide (c ≠ '_')) = c0 :: ds' :=
    List.filter_eq_self.mpr
      (fun a ha => decide_eq_true (digit_ne (hall a ha)).2.2.2)
  rw [hfilter, splitOnChar_no_sep (fun c hc => (digit_ne (hall c hc)).2.2.1)]
  dsimp only
  rw [if_pos ⟨h1, h2, h3⟩, one_mul]

/-- Accepted kind spellings never contain a dash. -/
theorem kindStrings_no_dash {ks : List Char} {k : OptionKind}
    (h : ks.map Char.toUpper ∈ kindStrings k) : ∀ x ∈ ks, x ≠ '-' := by
  cases k
  · simp only [kindStrings, List.mem_cons, List.not_mem_nil, or_false] at h
    rcases h with h | h
    · exact ne_dash_of_upper h (by decide)
    · exact ne_dash_of_upper h (by decide)
  · simp only [kindStrings, List.mem_cons, List.not_mem_nil, or_false] at h
    rcases h with h | h
    · exact ne_dash_of_upper h (by decide)
    · exact ne_dash_of_upper h (by decide)

/-- C6 (amended): every legal name `CCY-dMMMyy-STRIKE-K` — currency, month
and kind CASE-INSENSITIVELY spelling BTC/ETH, a month name, and C/CALL/P/PUT,
with a 1–2-digit day, a 2-digit year read as `20yy`, and a 1–28-digit strike —
parses successfully to the encoded fields (month stored uppercased), and
`expiry_date` on the result is 08:00:00 UTC on the encoded date; any string
that does not split on `-` into exactly four parts is rejected with
`InvalidFormat`. -/
theorem parser_roundtrip (cs ms strikeStr ks : List Char)
    (c : Currency) (d m yy : Nat) (k : OptionKind)
    (hcs : cs.map Char.toUpper = currencyText c)
    (hms : ms.map Char.toUpper = monthText m)
    (hm1 : 1 ≤ m) (hm2 : m ≤ 12)
    (hd1 : 1 ≤ d) (hd2 : d ≤ daysInMonth (2000 + yy) m)
    (hyy : yy < 100)
    (hstr1 : strikeStr ≠ []) (hstr2 : strikeStr.all Char.isDigit = true)
    (hstr3 : strikeStr.length ≤ 28)
    (hks : ks.map Char.toUpper ∈ kindStrings k) :
    parseInstrumentName
        (cs ++ ('-' :: ((dayText d ++ (ms ++ yearText yy)) ++
          ('-' :: (strikeStr ++ ('-' :: ks)))))) =
      .ok { currency := c, day := d, month := monthText m, year := 2000 + yy,
            strike := (digitsToNat strikeStr : ℚ), option_kind := k } ∧
    ParsedInstrumentName.expiryDate
        { currency := c, day := d, month := monthText m, year := 2000 + yy,
          strike := (digitsToNat strikeStr : ℚ), option_kind := k } =
      .ok ⟨2000 + yy, m, d, 8, 0, 0⟩ ∧
    (∀ s : List Char, (splitOnChar '-' s).length ≠ 4 →
      parseInstrumentName s = .error .invalidFormat) := by
  have hd100 : d < 100 := by
    have h31 : daysInMonth (2000 + yy) m ≤ 31 := by
      unfold daysInMonth
      split_ifs <;> omega
    omega
  have hA := dayText_parse d hd100
  have hY := yearText_parse yy hyy
  have hM := monthText_facts m (by omega) hm1
  have hMl : ms.length = 3 := by
    have hl := congrArg List.length hms
    rw [List.length_map, hM.1] at hl
    exact hl
  have hndC : ∀ x ∈ cs, x ≠ '-' :=
    ne_dash_of_upper hcs (by cases c <;> decide)
  have hndM : ∀ x ∈ ms, x ≠ '-' := ne_dash_of_upper hms hM.2.2
  have hndS : ∀ x ∈ strikeStr, x ≠ '-' :=
    fun x hx => (digit_ne (List.all_eq_true.mp hstr2 x hx)).1
  have hndK : ∀ x ∈ ks, x ≠ '-' := kindStrings_no_dash hks
  have hndD : ∀ x ∈ dayText d ++ (ms ++ yearText yy), x ≠ '-' := by
    intro x hx
    rcases List.mem_append.mp hx with h1 | h2
    · exact hA.2.1 x h1
    · rcases List.mem_append.mp h2 with h3 | h4
      · exact hndM x h3
      · exact hY.2.1 x h4
  have hsplit : splitOnChar '-'
      (cs ++ ('-' :: ((dayText d ++ (ms ++ yearText yy)) ++
        ('-' :: (strikeStr ++ ('-' :: ks)))))) =
      [cs, dayText d ++ (ms ++ yearText yy), strikeStr, ks] := by
    rw [splitOnChar_append hndC, splitOnChar_append hndD,
      splitOnChar_append hndS, splitOnChar_no_sep hndK]
  have hlenD : (dayText d ++ (ms ++ yearText yy)).length =
      (dayText d).length + 5 := by
    simp only [List.length_append, hMl, hY.2.2]
  have hyear : (dayText d ++ (ms ++ yearText yy)).drop
      ((dayText d ++ (ms ++ yearText yy)).length - 2) = yearText yy := by
    rw [← List.append_assoc]
    apply List.drop_left'
    rw [List.length_append, List.length_append, List.length_append, hMl, hY.2.2]
    omega
  have hmonth : ((dayText d ++ (ms ++ yearText yy)).drop
      ((dayText d ++ (ms ++ yearText yy)).length - 5)).take 3 = ms := by
    have hdrop : (dayText d ++ (ms ++ yearText yy)).drop
        ((dayText d ++ (ms ++ yearText yy)).length - 5) = ms ++ yearText yy := by
      apply List.drop_left'
      rw [hlenD]
      omega
    rw [hdrop]
    exact List.take_left' hMl
  have hday : (dayText d ++ (ms ++ yearText yy)).take
      ((dayText d ++ (ms ++ yearText yy)).length - 5) = dayText d := by
    apply List.take_left'
    rw [hlenD]
    omega
  refine ⟨?_, ?_, ?_⟩
  · unfold parseInstrumentName
    rw [hsplit]
    try dsimp only
    rw [parseCurrency_ok hcs]
    try dsimp only
    rw [if_neg (show ¬ ((dayText d ++ (ms ++ yearText yy)).length < 6) by
      rw [hlenD]; have h1 := hA.2.2; omega)]
    try dsimp only
    rw [hday, hA.1]
    try dsimp only
    rw [hyear, hY.1]
    try dsimp only
    rw [parseDecimal_digits hstr1 hstr2 hstr3]
    try dsimp only
    rw [parseOptionKind_ok hks]
    try dsimp only
    rw [hmonth, hms]
  · unfold ParsedInstrumentName.expiryDate
    try dsimp only
    rw [hM.2.1]
    try dsimp only
    rw [if_pos ⟨hd1, hd2⟩]
  · intro s hlen4
    unfold parseInstrumentName
    rcases hsp : splitOnChar '-' s with _ | ⟨p0, _ | ⟨p1, _ | ⟨p2, _ | ⟨p3, _ | ⟨p4, rest⟩⟩⟩⟩⟩
    · rfl
    · rfl
    · rfl
    · rfl
    · rw [hsp] at hlen4
      simp at hlen4
    · rfl

/-- The name `BTC-25MAR23-42000-c`, whose kind part is a lowercase `c`. -/
def nameLowerKind : List Char :=
  ['B', 'T', 'C', '-', '2', '5', 'M', 'A', 'R', '2', '3', '-',
   '4', '2', '0', '0', '0', '-', 'c']

/-- C6 counterexample: the kind part of `BTC-25MAR23-42000-c` is `c`, which
is NOT one of the spellings `C`/`CALL`/`P`/`PUT` the claim allows, yet the
parser accepts the name (it uppercases before matching) instead of rejecting
it with `UnknownOptionKind`. -/
theorem parser_case_counterexample :
    splitOnChar '-' nameLowerKind =
      [['B', 'T', 'C'], ['2', '5', 'M', 'A', 'R', '2', '3'],
       ['4', '2', '0', '0', '0'], ['c']] ∧
    (['c'] ≠ ['C'] ∧ ['c'] ≠ ['C', 'A', 'L', 'L'] ∧
     ['c'] ≠ ['P'] ∧ ['c'] ≠ ['P', 'U', 'T']) ∧
    parseInstrumentName nameLowerKind =
      .ok { currency := .btc, day := 25, month := ['M', 'A', 'R'], year := 2023,
            strike := 42000, option_kind := .call } := by
  refine ⟨by decide, by decide, ?_⟩
  have hdec : parseDecimal ['4', '2', '0', '0', '0'] = some 42000 := by
    rw [parseDecimal_digits (by decide) (by decide) (by decide),
      show digitsToNat ['4', '2', '0', '0', '0'] = 42000 from by decide]
    norm_num
  unfold parseInstrumentName
  rw [show splitOnChar '-' nameLowerKind =
    [['B', 'T', 'C'], ['2', '5', 'M', 'A', 'R', '2', '3'],
     ['4', '2', '0', '0', '0'], ['c']] from by decide]
  try dsimp only
  rw [show parseCurrency ['B', 'T', 'C'] = .ok Currency.btc from rfl]
  try dsimp only
  rw [if_neg (show ¬ ((['2', '5', 'M', 'A', 'R', '2', '3'] : List Char).length < 6)
    from by decide)]
  try dsimp only
  rw [show List.take ((['2', '5', 'M', 'A', 'R', '2', '3'] : List Char).length - 5)
      ['2', '5', 'M', 'A', 'R', '2', '3'] = ['2', '5'] from by decide,
    show parseU32 ['2', '5'] = some 25 from by decide]
  try dsimp only
  rw [show List.drop ((['2', '5', 'M', 'A', 'R', '2', '3'] : List Char).length - 2)
      ['2', '5', 'M', 'A', 'R', '2', '3'] = ['2', '3'] from by decide,
    show parseU32 ['2', '0', '2', '3'] = some 2023 from by decide]
  try dsimp only
  rw [hdec]
  try dsimp only
  rw [show parseOptionKind ['c'] = .ok OptionKind.call from rfl]
  try dsimp only
  rw [show List.map Char.toUpper (List.take 3
      (List.drop ((['2', '5', 'M', 'A', 'R', '2', '3'] : List Char).length - 5)
        ['2', '5', 'M', 'A', 'R', '2', '3'])) = ['M', 'A', 'R'] from by decide]

/-- Witness for the parser round trip on the lowercase-spelled legal name
`btc-25mar23-42000-c`. -/
theorem parser_roundtrip_check :
    parseInstrumentName
        (['b', 't', 'c'] ++ ('-' :: ((dayText 25 ++ (['m', 'a', 'r'] ++ yearText 23)) ++
          ('-' :: (['4', '2', '0', '0', '0'] ++ ('-' :: ['c'])))))) =
      .ok { currency := .btc, day := 25, month := monthText 3, year := 2000 + 23,
            strike := (digitsToNat ['4', '2', '0', '0', '0'] : ℚ),
            option_kind := .call } ∧
    ParsedInstrumentName.expiryDate
        { currency := .btc, day := 25, month := monthText 3, year := 2000 + 23,
          strike := (digitsToNat ['4', '2', '0', '0', '0'] : ℚ),
          option_kind := .call } =
      .ok ⟨2000 + 23, 3, 25, 8, 0, 0⟩ ∧
    (∀ s : List Char, (splitOnChar '-' s).length ≠ 4 →
      parseInstrumentName s = .error .invalidFormat) :=
  parser_roundtrip ['b', 't', 'c'] ['m', 'a', 'r'] ['4', '2', '0', '0', '0'] ['c']
    .btc 25 3 23 .call (by decide) (by decide) (by decide) (by decide) (by decide)
    (by decide) (by decide) (by decide) (by decide) (by decide) (by decide)
